import Mathlib

/-!
Verification development for `src/es4/whatsapp_mine.py`.

The Python program is embedded shallowly: strings are `List Char`, the
regular expressions of the source are modelled as deterministic consumer
functions (the relevant regexes are deterministic once greedy matching and
the limited backtracking of the concrete patterns are worked out; each
consumer's doc comment records the regex it models), `datetime.strptime`
is modelled token by token following CPython's `_strptime` character
classes, and the line-oriented parser is a fold of an explicit step
function over the split lines.  Python's `\s` and `str.strip`/`str.lower`
are modelled on the ASCII range (the inputs the program handles are ASCII
apart from the fixed accented-letter set of `WORD_RE`, which is modelled
explicitly).
-/

namespace WA

abbrev Cs := List Char

/-- ASCII whitespace, modelling Python's `\s` character class on the
ASCII range: space, tab, newline, vertical tab, form feed, carriage
return. -/
def isWs (c : Char) : Bool :=
  c == ' ' || c == '\t' || c == '\n' || c == '\x0b' || c == '\x0c' || c == '\r'

/-- Decimal digit, modelling `\d` on ASCII. -/
def isDig (c : Char) : Bool :=
  48 ≤ c.toNat && c.toNat ≤ 57

/-- The date separators `[\/\.\-]` of the line patterns. -/
def isSep (c : Char) : Bool :=
  c == '/' || c == '.' || c == '-'

def digitVal (c : Char) : Nat := c.toNat - 48

/-- Numeric value of a two-digit group. -/
def two (a b : Char) : Nat := digitVal a * 10 + digitVal b

/-- The `takeWhile`/`dropWhile` pair, as Python's greedy character-class runs. -/
def spanP (p : Char → Bool) (l : Cs) : Cs × Cs :=
  (l.takeWhile p, l.dropWhile p)

/-- Python `str.strip()` restricted to ASCII whitespace. -/
def stripChars (l : Cs) : Cs :=
  ((l.dropWhile isWs).reverse.dropWhile isWs).reverse

/-- Helper for `collapseWs`: squeeze adjacent spaces into one. -/
def squeezeSpaces : Cs → Cs
  | [] => []
  | [c] => [c]
  | c1 :: c2 :: r =>
    if c1 = ' ' ∧ c2 = ' ' then squeezeSpaces (c2 :: r)
    else c1 :: squeezeSpaces (c2 :: r)

/-- Python `re.sub(r"\s+", " ", s)`: every maximal whitespace run becomes
a single space.  Implemented as mapping whitespace to `' '` and squeezing
adjacent spaces, which is equivalent. -/
def collapseWs (l : Cs) : Cs :=
  squeezeSpaces (l.map (fun c => if isWs c then ' ' else c))

/-- Python `str.splitlines()` for the terminators `\n`, `\r\n`, `\r`
(the ones that can occur in the program's text inputs): no trailing empty
line is produced for a terminal line break. -/
def splitGo : Cs → Cs → List Cs
  | [], acc => [acc.reverse]
  | '\r' :: '\n' :: r, acc =>
    acc.reverse :: (if r.isEmpty then [] else splitGo r [])
  | '\n' :: r, acc =>
    acc.reverse :: (if r.isEmpty then [] else splitGo r [])
  | '\r' :: r, acc =>
    acc.reverse :: (if r.isEmpty then [] else splitGo r [])
  | c :: r, acc => splitGo r (c :: acc)

def splitLines (l : Cs) : List Cs :=
  if l.isEmpty then [] else splitGo l []

/-! ### The DateTime model

`datetime.strptime` results are represented by their six calendar/time
fields; `toSecs` is the proleptic-Gregorian second count used to model
datetime comparison and subtraction (`total_seconds` of a difference of
two such datetimes, which is always a whole number of seconds here since
no parsed format carries sub-second precision). -/

structure DateTime where
  year : Nat
  month : Nat
  day : Nat
  hour : Nat
  minute : Nat
  second : Nat
deriving DecidableEq, Repr

def isLeap (y : Nat) : Bool :=
  (y % 4 == 0 && y % 100 != 0) || y % 400 == 0

def daysInMonth (y m : Nat) : Nat :=
  if m = 2 then (if isLeap y then 29 else 28)
  else if m = 4 ∨ m = 6 ∨ m = 9 ∨ m = 11 then 30
  else 31

def daysBeforeMonth (y m : Nat) : Nat :=
  ((List.range (m - 1)).map (fun i => daysInMonth y (i + 1))).foldl (· + ·) 0

def daysFromYearOne (y m d : Nat) : Nat :=
  365 * (y - 1) + (y - 1) / 4 - (y - 1) / 100 + (y - 1) / 400
    + daysBeforeMonth y m + (d - 1)

def DateTime.toSecs (dt : DateTime) : Int :=
  (daysFromYearOne dt.year dt.month dt.day : Int) * 86400
    + dt.hour * 3600 + dt.minute * 60 + dt.second

/-! ### strptime model

Each `%`-directive of the formats in `DT_FORMATS` is one token.  The
character classes follow CPython's `_strptime.TimeRE`:
`%d = (3[01]|[12]\d|0[1-9]|[1-9])`, `%m = %I = (1[0-2]|0[1-9]|[1-9])`,
`%y = \d\d`, `%Y = \d{4}`, `%H = (2[0-3]|[0-1]\d|\d)`,
`%M = ([0-5]\d|\d)`, `%S = (6[0-1]|[0-5]\d|\d)`, `%p = am|pm`
case-insensitively, and a literal whitespace in the format matches
`\s+`.  Alternatives are tried two-digit first, as in the regex, with
full backtracking through the ordered choice `oChoice`.  After matching,
the `datetime` constructor's validity checks are applied (`finalizeAcc`);
a failure there is a `ValueError`, i.e. the format simply fails. -/

inductive FmtTok
  | lit (c : Char)
  | D | Mo | Y2 | Y4 | H24 | H12 | Mi | S | P
deriving DecidableEq, Repr

structure StrpAcc where
  y : Nat := 1900
  mo : Nat := 1
  d : Nat := 1
  h : Nat := 0
  mi : Nat := 0
  s : Nat := 0
  pmFlag : Option Bool := none
deriving DecidableEq, Repr

/-- Ordered choice (regex alternation with backtracking). -/
def oChoice (o1 o2 : Option StrpAcc) : Option StrpAcc :=
  match o1 with
  | some x => some x
  | none => o2

def lowAlpha (c : Char) : Char :=
  if 65 ≤ c.toNat ∧ c.toNat ≤ 90 then Char.ofNat (c.toNat + 32) else c

/-- Match a token list against an input, collecting fields; the whole
input must be consumed (strptime raises on unconverted data). -/
def matchToks : List FmtTok → Cs → StrpAcc → Option StrpAcc
  | [], input, a => if input.isEmpty then some a else none
  | FmtTok.lit c :: fs, input, a =>
    if c = ' ' then
      match spanP isWs input with
      | ([], _) => none
      | (_ :: _, r) => matchToks fs r a
    else
      match input with
      | [] => none
      | c2 :: r => if c2 = c then matchToks fs r a else none
  | FmtTok.D :: fs, input, a =>
    oChoice
      (match input with
       | c1 :: c2 :: r =>
         if isDig c1 && isDig c2 && decide (1 ≤ two c1 c2) && decide (two c1 c2 ≤ 31)
         then matchToks fs r { a with d := two c1 c2 } else none
       | _ => none)
      (match input with
       | c1 :: r =>
         if isDig c1 && decide (1 ≤ digitVal c1)
         then matchToks fs r { a with d := digitVal c1 } else none
       | _ => none)
  | FmtTok.Mo :: fs, input, a =>
    oChoice
      (match input with
       | c1 :: c2 :: r =>
         if isDig c1 && isDig c2 && decide (1 ≤ two c1 c2) && decide (two c1 c2 ≤ 12)
         then matchToks fs r { a with mo := two c1 c2 } else none
       | _ => none)
      (match input with
       | c1 :: r =>
         if isDig c1 && decide (1 ≤ digitVal c1)
         then matchToks fs r { a with mo := digitVal c1 } else none
       | _ => none)
  | FmtTok.Y2 :: fs, input, a =>
    match input with
    | c1 :: c2 :: r =>
      if isDig c1 && isDig c2 then
        matchToks fs r { a with y := if two c1 c2 ≤ 68 then 2000 + two c1 c2 else 1900 + two c1 c2 }
      else none
    | _ => none
  | FmtTok.Y4 :: fs, input, a =>
    match input with
    | c1 :: c2 :: c3 :: c4 :: r =>
      if isDig c1 && isDig c2 && isDig c3 && isDig c4 then
        matchToks fs r { a with y := ((digitVal c1 * 10 + digitVal c2) * 10 + digitVal c3) * 10 + digitVal c4 }
      else none
    | _ => none
  | FmtTok.H24 :: fs, input, a =>
    oChoice
      (match input with
       | c1 :: c2 :: r =>
         if isDig c1 && isDig c2 && decide (two c1 c2 ≤ 23)
         then matchToks fs r { a with h := two c1 c2 } else none
       | _ => none)
      (match input with
       | c1 :: r =>
         if isDig c1 then matchToks fs r { a with h := digitVal c1 } else none
       | _ => none)
  | FmtTok.H12 :: fs, input, a =>
    oChoice
      (match input with
       | c1 :: c2 :: r =>
         if isDig c1 && isDig c2 && decide (1 ≤ two c1 c2) && decide (two c1 c2 ≤ 12)
         then matchToks fs r { a with h := two c1 c2 } else none
       | _ => none)
      (match input with
       | c1 :: r =>
         if isDig c1 && decide (1 ≤ digitVal c1)
         then matchToks fs r { a with h := digitVal c1 } else none
       | _ => none)
  | FmtTok.Mi :: fs, input, a =>
    oChoice
      (match input with
       | c1 :: c2 :: r =>
         if isDig c1 && isDig c2 && decide (two c1 c2 ≤ 59)
         then matchToks fs r { a with mi := two c1 c2 } else none
       | _ => none)
      (match input with
       | c1 :: r =>
         if isDig c1 then matchToks fs r { a with mi := digitVal c1 } else none
       | _ => none)
  | FmtTok.S :: fs, input, a =>
    oChoice
      (match input with
       | c1 :: c2 :: r =>
         if isDig c1 && isDig c2 && decide (two c1 c2 ≤ 61)
         then matchToks fs r { a with s := two c1 c2 } else none
       | _ => none)
      (match input with
       | c1 :: r =>
         if isDig c1 then matchToks fs r { a with s := digitVal c1 } else none
       | _ => none)
  | FmtTok.P :: fs, input, a =>
    match input with
    | c1 :: c2 :: r =>
      if (lowAlpha c1 = 'a' ∨ lowAlpha c1 = 'p') ∧ lowAlpha c2 = 'm' then
        matchToks fs r { a with pmFlag := some (lowAlpha c1 = 'p') }
      else none
    | _ => none

/-- The validity checks of the `datetime` constructor, plus the
`%I`/`%p` hour-12 combination performed by `_strptime`. -/
def finalizeAcc (a : StrpAcc) : Option DateTime :=
  let h := match a.pmFlag with
    | none => a.h
    | some true => if a.h = 12 then 12 else a.h + 12
    | some false => if a.h = 12 then 0 else a.h
  if 1 ≤ a.y ∧ a.y ≤ 9999 ∧ 1 ≤ a.d ∧ a.d ≤ daysInMonth a.y a.mo ∧ a.s ≤ 59 ∧ h ≤ 23
  then some ⟨a.y, a.mo, a.d, h, a.mi, a.s⟩
  else none

def strpMatch (f : List FmtTok) (s : Cs) : Option DateTime :=
  match matchToks f s {} with
  | some a => finalizeAcc a
  | none => none

def fDate (a : FmtTok) (b : FmtTok) (sep : Char) (y : FmtTok) : List FmtTok :=
  [a, FmtTok.lit sep, b, FmtTok.lit sep, y]

def fHM : List FmtTok := [FmtTok.H24, FmtTok.lit ':', FmtTok.Mi]

def fHMS : List FmtTok :=
  [FmtTok.H24, FmtTok.lit ':', FmtTok.Mi, FmtTok.lit ':', FmtTok.S]

def fIM : List FmtTok :=
  [FmtTok.H12, FmtTok.lit ':', FmtTok.Mi, FmtTok.lit ' ', FmtTok.P]

def fIMS : List FmtTok :=
  [FmtTok.H12, FmtTok.lit ':', FmtTok.Mi, FmtTok.lit ':', FmtTok.S, FmtTok.lit ' ', FmtTok.P]

def mkFmt (d t : List FmtTok) : List FmtTok := d ++ [FmtTok.lit ' '] ++ t

/-- The ordered `DT_FORMATS` list of the source, token by token. -/
def DT_FORMATS : List (List FmtTok) :=
  [ mkFmt (fDate FmtTok.D FmtTok.Mo '/' FmtTok.Y2) fHM
  , mkFmt (fDate FmtTok.D FmtTok.Mo '/' FmtTok.Y4) fHM
  , mkFmt (fDate FmtTok.D FmtTok.Mo '/' FmtTok.Y2) fHMS
  , mkFmt (fDate FmtTok.D FmtTok.Mo '/' FmtTok.Y4) fHMS
  , mkFmt (fDate FmtTok.D FmtTok.Mo '.' FmtTok.Y2) fHM
  , mkFmt (fDate FmtTok.D FmtTok.Mo '.' FmtTok.Y4) fHM
  , mkFmt (fDate FmtTok.D FmtTok.Mo '.' FmtTok.Y2) fHMS
  , mkFmt (fDate FmtTok.D FmtTok.Mo '.' FmtTok.Y4) fHMS
  , mkFmt (fDate FmtTok.D FmtTok.Mo '-' FmtTok.Y2) fHM
  , mkFmt (fDate FmtTok.D FmtTok.Mo '-' FmtTok.Y4) fHM
  , mkFmt (fDate FmtTok.D FmtTok.Mo '-' FmtTok.Y2) fHMS
  , mkFmt (fDate FmtTok.D FmtTok.Mo '-' FmtTok.Y4) fHMS
  , mkFmt (fDate FmtTok.Mo FmtTok.D '/' FmtTok.Y2) fHM
  , mkFmt (fDate FmtTok.Mo FmtTok.D '/' FmtTok.Y4) fHM
  , mkFmt (fDate FmtTok.Mo FmtTok.D '/' FmtTok.Y2) fHMS
  , mkFmt (fDate FmtTok.Mo FmtTok.D '/' FmtTok.Y4) fHMS
  , mkFmt (fDate FmtTok.D FmtTok.Mo '/' FmtTok.Y2) fIM
  , mkFmt (fDate FmtTok.D FmtTok.Mo '/' FmtTok.Y4) fIM
  , mkFmt (fDate FmtTok.D FmtTok.Mo '/' FmtTok.Y2) fIMS
  , mkFmt (fDate FmtTok.D FmtTok.Mo '/' FmtTok.Y4) fIMS
  , mkFmt (fDate FmtTok.Mo FmtTok.D '/' FmtTok.Y2) fIM
  , mkFmt (fDate FmtTok.Mo FmtTok.D '/' FmtTok.Y4) fIM
  , mkFmt (fDate FmtTok.Mo FmtTok.D '/' FmtTok.Y2) fIMS
  , mkFmt (fDate FmtTok.Mo FmtTok.D '/' FmtTok.Y4) fIMS
  , mkFmt (fDate FmtTok.D FmtTok.Mo '.' FmtTok.Y2) fIM
  , mkFmt (fDate FmtTok.D FmtTok.Mo '.' FmtTok.Y4) fIM
  , mkFmt (fDate FmtTok.D FmtTok.Mo '.' FmtTok.Y2) fIMS
  , mkFmt (fDate FmtTok.D FmtTok.Mo '.' FmtTok.Y4) fIMS
  ]

/-- The normalized "date time" string that `try_parse_dt` builds:
concatenate with one space, strip, collapse internal whitespace. -/
def normDT (date time : Cs) : Cs :=
  collapseWs (stripChars (date ++ ' ' :: time))

/-- First format that matches wins. -/
def firstSome (fs : List (List FmtTok)) (s : Cs) : Option DateTime :=
  match fs with
  | [] => none
  | f :: r =>
    match strpMatch f s with
    | some v => some v
    | none => firstSome r s

/-- Model of `try_parse_dt(date_str, time_str)` of the source. -/
def try_parse_dt (date time : Cs) : Option DateTime :=
  firstSome DT_FORMATS (normDT date time)

/-! ### Line-pattern models

The date/time sub-patterns of `PATTERNS`, `SYSTEM_PATTERNS` and
`BRACKET_TS_ONLY` are modelled through a tiny list of atoms consumed in
sequence.  Greedy matching with backtracking of the concrete regexes is
deterministic here because every numeric group is followed by a
non-digit, so a `\d{lo,hi}` group matches exactly the maximal digit run
(whose length must lie in the range), and the optional groups can never
trade characters with what follows them inside these patterns. -/

inductive Atom
  /-- Matches `\d{lo,hi}` in a context whose continuation cannot start with a digit. -/
  | digits (lo hi : Nat)
  /-- a single character satisfying `p` (used for `[\/\.\-]` and `:`). -/
  | one (p : Char → Bool)
  /-- Matches `\s*`. -/
  | wsStar
  /-- Matches `(?::\d{2})?` followed by a continuation that cannot start with `:`. -/
  | secOpt
  /-- Matches `(?:AM|PM|am|pm)?` (case sensitive, as in the line patterns). -/
  | ampmOpt

/-- A continuation that cannot interact with any greedy or optional
group of the date/time sub-patterns: empty, or starting with `]` or `,`
(the only characters that follow those groups in the bracketed
patterns). -/
def safeB (b : Cs) : Prop :=
  match b with
  | [] => True
  | c :: _ => c = ']' ∨ c = ','

/-- Is this two-character sequence one of `AM|PM|am|pm`? -/
def isAmPm (c1 c2 : Char) : Bool :=
  (c1 == 'A' && c2 == 'M') || (c1 == 'P' && c2 == 'M') ||
  (c1 == 'a' && c2 == 'm') || (c1 == 'p' && c2 == 'm')

/-- Consume one atom, returning `(consumed, rest)`. -/
def consumeAtom : Atom → Cs → Option (Cs × Cs)
  | Atom.digits lo hi, l =>
    let run := l.takeWhile isDig
    if lo ≤ run.length ∧ run.length ≤ hi then some (run, l.dropWhile isDig) else none
  | Atom.one p, l =>
    match l with
    | c :: r => if p c then some ([c], r) else none
    | [] => none
  | Atom.wsStar, l => some (l.takeWhile isWs, l.dropWhile isWs)
  | Atom.secOpt, l =>
    match l with
    | c0 :: r =>
      if c0 = ':' then
        (let run := r.takeWhile isDig
         if run.length = 2 then some (':' :: run, r.dropWhile isDig)
         else some ([], c0 :: r))
      else some ([], c0 :: r)
    | [] => some ([], [])
  | Atom.ampmOpt, l =>
    match l with
    | c1 :: c2 :: r =>
      if isAmPm c1 c2 then some ([c1, c2], r) else some ([], c1 :: c2 :: r)
    | l2 => some ([], l2)

/-- Consume a sequence of atoms, concatenating what they consume. -/
def consumeSeq : List Atom → Cs → Option (Cs × Cs)
  | [], l => some ([], l)
  | a :: as, l =>
    match consumeAtom a l with
    | none => none
    | some (c, r) =>
      match consumeSeq as r with
      | none => none
      | some (c2, r2) => some (c ++ c2, r2)

/-- Atoms of `(?P<date>\d{1,2}[\/\.\-]\d{1,2}[\/\.\-]\d{2,4})`. -/
def dateAtoms : List Atom :=
  [Atom.digits 1 2, Atom.one isSep, Atom.digits 1 2, Atom.one isSep, Atom.digits 2 4]

/-- Atoms of `(?P<time>\d{1,2}:\d{2}(?::\d{2})?\s*(?:AM|PM|am|pm)?)`. -/
def timeAtoms : List Atom :=
  [Atom.digits 1 2, Atom.one (· == ':'), Atom.digits 2 2, Atom.secOpt, Atom.wsStar, Atom.ampmOpt]

def consumeDate (l : Cs) : Option (Cs × Cs) := consumeSeq dateAtoms l

def consumeTime (l : Cs) : Option (Cs × Cs) := consumeSeq timeAtoms l

/-- The date string matches the date sub-pattern exactly. -/
def IsDate (d : Cs) : Prop := consumeDate d = some (d, [])

/-- The time string matches the time sub-pattern exactly. -/
def IsTime (t : Cs) : Prop := consumeTime t = some (t, [])

instance (d : Cs) : Decidable (IsDate d) := by unfold IsDate; infer_instance

instance (t : Cs) : Decidable (IsTime t) := by unfold IsTime; infer_instance

/-- Model of `(?:,\s+|\s+)` and, equivalently here, `,?\s+`: an optional comma
then at least one whitespace; the consumed characters belong to no
captured group. -/
def consumeCommaWs (l : Cs) : Option Cs :=
  match l with
  | ',' :: r =>
    (match spanP isWs r with
     | ([], _) => none
     | (_ :: _, r2) => some r2)
  | _ =>
    match spanP isWs l with
    | ([], _) => none
    | (_ :: _, r2) => some r2

/-- The common head `^\[(?P<date>...)(?:,\s+|\s+)(?P<time>...)\]` of the
three bracketed patterns; returns the two groups and what follows `]`. -/
def consumeBracketHead (l : Cs) : Option (Cs × Cs × Cs) :=
  match l with
  | '[' :: r =>
    (match consumeDate r with
     | none => none
     | some (d, r1) =>
       match consumeCommaWs r1 with
       | none => none
       | some r2 =>
         match consumeTime r2 with
         | none => none
         | some (t, r3) =>
           match r3 with
           | ']' :: r4 => some (d, t, r4)
           | _ => none)
  | _ => none

/-- Model of `BRACKET_TS_ONLY`: the bracketed head followed by `\s*$`. -/
def bracketTsOnly (l : Cs) : Option (Cs × Cs) :=
  match consumeBracketHead l with
  | none => none
  | some (d, t, r) => if (r.dropWhile isWs).isEmpty then some (d, t) else none

/-- Model of `\s+(?P<sender>[^:]+):\s*(?P<text>.*)$`, the tail shared by the two
authored-message patterns.  With `w` the length of the maximal
whitespace run and `p` the index of the first colon, the regex matches
iff `w ≥ 1` and `p ≥ 2`; backtracking makes `\s+` take
`min w (p - 1)` characters, `[^:]+` the rest up to the colon, and `\s*`
the whitespace after the colon. -/
def consumeSenderColonText (r : Cs) : Option (Cs × Cs) :=
  let w := (r.takeWhile isWs).length
  let p := (r.takeWhile (· != ':')).length
  if w = 0 ∨ p < 2 ∨ p = r.length then none
  else
    let j := min w (p - 1)
    some ((r.drop j).take (p - j), (r.drop (p + 1)).dropWhile isWs)

/-- Model of `\s+(?P<text>.*)$`, the tail of the iOS system pattern. -/
def consumeWsText (r : Cs) : Option Cs :=
  match spanP isWs r with
  | ([], _) => none
  | (_ :: _, r2) => some r2

/-- The Android time group followed by `\s+-\s+` up to and including the
dash: the time group's internal `\s*(?:AM|PM|am|pm)?` interacts with the
following `\s+` by backtracking.  With `w` the whitespace run after the
clock digits: if am/pm follows the run it is part of the time group and
a fresh `\s+ - ` is required after it; otherwise `\s*` backs off to
`w - 1` characters (requiring `w ≥ 1`) and the dash must follow
immediately after the run. -/
def consumeTimeDash (l : Cs) : Option (Cs × Cs) :=
  match consumeSeq [Atom.digits 1 2, Atom.one (· == ':'), Atom.digits 2 2, Atom.secOpt] l with
  | none => none
  | some (core, r1) =>
    let ws := r1.takeWhile isWs
    let r2 := r1.dropWhile isWs
    match r2 with
    | c1 :: c2 :: r3 =>
      if isAmPm c1 c2 then
        -- time group = core ++ ws ++ ampm, then `\s+-` (the trailing `\s+`
        -- of `\s+-\s+` is consumed by the sender/text tail that follows)
        (match r3.takeWhile isWs, r3.dropWhile isWs with
         | [], _ => none
         | _ :: _, '-' :: r4 => some (core ++ ws ++ [c1, c2], r4)
         | _ :: _, _ => none)
      else if ws.isEmpty then none
      else match r2 with
        | '-' :: r4 => some (core ++ ws.dropLast, r4)
        | _ => none
    | ['-'] => if ws.isEmpty then none else some (core ++ ws.dropLast, [])
    | _ => none

/-- Model of `PATTERNS[0]`, Android-like authored:
`^(date),?\s+(time)\s+-\s+(sender):\s*(text)$`. -/
def androidAuthored (l : Cs) : Option (Cs × Cs × Cs × Cs) :=
  match consumeDate l with
  | none => none
  | some (d, r1) =>
    match consumeCommaWs r1 with
    | none => none
    | some r2 =>
      match consumeTimeDash r2 with
      | none => none
      | some (t, r3) =>
        match consumeSenderColonText r3 with
        | none => none
        | some (s, x) => some (d, t, s, x)

/-- Model of `PATTERNS[1]`, iOS-like authored:
`^\[(date)(?:,\s+|\s+)(time)\]\s+(sender):\s*(text)$`. -/
def iosAuthored (l : Cs) : Option (Cs × Cs × Cs × Cs) :=
  match consumeBracketHead l with
  | none => none
  | some (d, t, r) =>
    match consumeSenderColonText r with
    | none => none
    | some (s, x) => some (d, t, s, x)

/-- Model of `SYSTEM_PATTERNS[0]`, Android-like system:
`^(date),?\s+(time)\s+-\s+(text)$`. -/
def androidSystem (l : Cs) : Option (Cs × Cs × Cs) :=
  match consumeDate l with
  | none => none
  | some (d, r1) =>
    match consumeCommaWs r1 with
    | none => none
    | some r2 =>
      match consumeTimeDash r2 with
      | none => none
      | some (t, r3) =>
        match consumeWsText r3 with
        | none => none
        | some x => some (d, t, x)

/-- Model of `SYSTEM_PATTERNS[1]`, iOS-like system:
`^\[(date)(?:,\s+|\s+)(time)\]\s+(text)$`. -/
def iosSystem (l : Cs) : Option (Cs × Cs × Cs) :=
  match consumeBracketHead l with
  | none => none
  | some (d, t, r) =>
    match consumeWsText r with
    | none => none
    | some x => some (d, t, x)

/-- Model of `SENDER_ONLY`: `^(?P<sender>[^:]+):\s*(?P<text>.*)$` — a nonempty
colon-free prefix, the first colon, then the rest with leading
whitespace dropped. -/
def senderOnly (l : Cs) : Option (Cs × Cs) :=
  let pre := l.takeWhile (· != ':')
  if pre.length = 0 ∨ pre.length = l.length then none
  else some (pre, (l.drop (pre.length + 1)).dropWhile isWs)

/-- The `for pat in PATTERNS` loop: first match wins. -/
def matchPatterns (l : Cs) : Option (Cs × Cs × Cs × Cs) :=
  match androidAuthored l with
  | some m => some m
  | none => iosAuthored l

/-- The `for pat in SYSTEM_PATTERNS` loop: first match wins. -/
def matchSystem (l : Cs) : Option (Cs × Cs × Cs) :=
  match androidSystem l with
  | some m => some m
  | none => iosSystem l

/-! ### The Message Assembler -/

/-- One entry of the parser's `messages` list: the dict
`(ts, sender, text, is_system)`;  `ts` is still optional here, the
final filter of `parse_chat_text` removes unresolved timestamps. -/
structure RawMsg where
  ts : Option DateTime
  sender : Option Cs
  text : Cs
  is_system : Bool
deriving DecidableEq, Repr

/-- The loop state of `parse_chat_text`: the open message, the pending
two-line-header timestamp, and the emitted messages. -/
structure PState where
  current : Option RawMsg
  pending : Option DateTime
  out : List RawMsg
deriving DecidableEq, Repr

/-- Flush the open message, as `if current is not None: messages.append(current)`. -/
def flushCur (st : PState) : List RawMsg :=
  st.out ++ st.current.toList

/-- One iteration of the `for raw_line in content.splitlines()` loop. -/
def step (st : PState) (line : Cs) : PState :=
  match st.pending with
  | some pts =>
    -- 1) pending timestamp: bind this line as sender/message or system text
    match senderOnly line with
    | some (s, x) =>
      { current := some ⟨some pts, some (stripChars s), x, false⟩
        pending := none
        out := flushCur st }
    | none =>
      { current := some ⟨some pts, none, line, true⟩
        pending := none
        out := flushCur st }
  | none =>
    -- 2) bracketed timestamp-only line
    match bracketTsOnly line with
    | some (d, t) =>
      (match try_parse_dt d t with
       | some ts => { st with pending := some ts }
       | none => st)
    | none =>
      -- 3) normal one-line parsing
      match matchPatterns line with
      | some (d, t, s, x) =>
        { current := some ⟨try_parse_dt d t, some (stripChars s), x, false⟩
          pending := none
          out := flushCur st }
      | none =>
        match matchSystem line with
        | some (d, t, x) =>
          { current := some ⟨try_parse_dt d t, none, x, true⟩
            pending := none
            out := flushCur st }
        | none =>
          -- continuation line (multiline message), or dropped
          match st.current with
          | some m => { st with current := some { m with text := m.text ++ '\n' :: line } }
          | none => st

/-- Model of `parse_chat_text(content)`: fold the step over the lines, flush the
final open message, and keep only messages with a resolved timestamp. -/
def parse_chat_text (content : Cs) : List RawMsg :=
  let fin := (splitLines content).foldl step ⟨none, none, []⟩
  (flushCur fin).filter (fun m => m.ts.isSome)

/-! ### The Statistics Engine

`stats_for_messages` consumes message dicts whose `ts` is an actual
datetime (in the program, its inputs come from `parse_chat_text`, whose
final filter guarantees exactly that; `Msg` is `RawMsg` with the
timestamp resolved).  The global configuration `REACTION_CUTOFF_SEC` is
passed as the explicit `cutoff` argument; the presentational `label`
parameter is omitted. -/

structure Msg where
  ts : DateTime
  sender : Option Cs
  text : Cs
  is_system : Bool
deriving DecidableEq, Repr

/-- The bridge from parser output to statistics input: keep the entries
whose timestamp is resolved (all of them, by the parser's final filter). -/
def resolveMsg (m : RawMsg) : Option Msg :=
  match m.ts with
  | some t => some ⟨t, m.sender, m.text, m.is_system⟩
  | none => none

def parse_messages (content : Cs) : List Msg :=
  (parse_chat_text content).filterMap resolveMsg

/-- Python truthiness of the `sender` field: `None` and `""` are falsy. -/
def senderTruthy : Option Cs → Bool
  | none => false
  | some s => !s.isEmpty

/-- Model of `non_system = [m for m in messages if not m["is_system"] and m["sender"]]`. -/
def qualifying (messages : List Msg) : List Msg :=
  messages.filter (fun m => !m.is_system && senderTruthy m.sender)

def senderOf (m : Msg) : Cs := m.sender.getD []

/-- Model of `collections.Counter` over a list: an association list in order of
first encounter (dict insertion order), with occurrence counts. -/
def bump (s : Cs) : List (Cs × Nat) → List (Cs × Nat)
  | [] => [(s, 1)]
  | (t, n) :: r => if t = s then (t, n + 1) :: r else (t, n) :: bump s r

def countOcc (l : List Cs) : List (Cs × Nat) :=
  l.foldl (fun acc s => bump s acc) []

/-- First-match lookup in the counter's association list (0 if absent). -/
def lookupC : List (Cs × Nat) → Cs → Nat
  | [], _ => 0
  | (t, n) :: r, s => if t = s then n else lookupC r s

/-- The keys of the counter's association list, in iteration order. -/
def keysC (l : List (Cs × Nat)) : List Cs := l.map Prod.fst

/-- One step of the maximum search underlying `most_common(1)`: keep the
current best unless the new entry's count is strictly larger. -/
def mc1Step (acc : Option (Cs × Nat)) (p : Cs × Nat) : Option (Cs × Nat) :=
  match acc with
  | none => some p
  | some q => if p.2 > q.2 then some p else some q

/-- Model of `Counter.most_common(1)[0]`: the first entry of maximal count in
iteration order (`heapq.nlargest` breaks count ties in favour of the
earlier item). -/
def mostCommon1 (counts : List (Cs × Nat)) : Option (Cs × Nat) :=
  counts.foldl mc1Step none

/-- Stable descending insertion by count (earlier entries stay first on
ties), modelling `sorted(..., reverse=True)` / `heapq.nlargest`. -/
def insDesc (p : Cs × Nat) : List (Cs × Nat) → List (Cs × Nat)
  | [] => [p]
  | q :: r => if q.2 ≤ p.2 then p :: q :: r else q :: insDesc p r

/-- Model of `Counter.most_common(n)`: stable descending sort by count, first `n`. -/
def mostCommonN (n : Nat) (counts : List (Cs × Nat)) : List (Cs × Nat) :=
  (counts.foldr insDesc []).take n

/-- Lower-casing as `str.lower` on the character set `WORD_RE` can
produce: ASCII letters and the accented letters of the pattern. -/
def pyLower (c : Char) : Char :=
  if 65 ≤ c.toNat ∧ c.toNat ≤ 90 then Char.ofNat (c.toNat + 32)
  else if c = 'À' ∨ c = 'È' ∨ c = 'É' ∨ c = 'Ì' ∨ c = 'Ò' ∨ c = 'Ù' ∨
          c = 'Ä' ∨ c = 'Ö' ∨ c = 'Ü' ∨ c = 'Ç' ∨ c = 'Ñ' then
    Char.ofNat (c.toNat + 32)
  else c

/-- The character class of `WORD_RE`: `[a-zàèéìòùäöüßçñ]` (after
lower-casing, so only the lowercase letters remain relevant). -/
def isWordChar (c : Char) : Bool :=
  (97 ≤ c.toNat && c.toNat ≤ 122) ||
  c == 'à' || c == 'è' || c == 'é' || c == 'ì' || c == 'ò' || c == 'ù' ||
  c == 'ä' || c == 'ö' || c == 'ü' || c == 'ß' || c == 'ç' || c == 'ñ'

/-- Model of `WORD_RE.findall`: the maximal runs of word characters. -/
def tokGo : Cs → Cs → List Cs
  | [], acc => if acc.isEmpty then [] else [acc.reverse]
  | c :: r, acc =>
    if isWordChar c then tokGo r (c :: acc)
    else if acc.isEmpty then tokGo r []
    else acc.reverse :: tokGo r []

def tokensOf (l : Cs) : List Cs := tokGo l []

/-- The text `" ".join(m["text"] ...)` lower-cased, then tokenized. -/
def wordsOf (q : List Msg) : List Cs :=
  tokensOf ((List.intercalate [' '] (q.map (·.text))).map pyLower)

/-- Model of `REACTION_CUTOFF_SEC = 6 * 3600`; `none` models the disabled cutoff. -/
def REACTION_CUTOFF_SEC : Option Int := some (6 * 3600)

/-- Model of `within_cutoff(dt_sec)` of the source. -/
def within_cutoff (cutoff : Option Int) (dt_sec : Int) : Bool :=
  match cutoff with
  | none => true
  | some c => dt_sec ≤ c

def isMe (my_names : List Cs) (m : Msg) : Bool :=
  decide (senderOf m ∈ my_names)

/-- Model of `sorted(non_system, key=lambda x: x["ts"])`: Python's sort is
stable; `insertionSort` with a non-strict key comparison is too. -/
def sortByTs (l : List Msg) : List Msg :=
  l.insertionSort (fun a b => a.ts.toSecs ≤ b.ts.toSecs)

/-- The body of the reaction loop for one adjacent pair `(prev, cur)`:
`none` when the pair is skipped, otherwise the recorded sample tagged
with `true` for a me-reaction (them → me) and `false` for a
them-reaction (me → them). -/
def pairSample (my_names : List Cs) (cutoff : Option Int) (prev cur : Msg) :
    Option (Bool × Int) :=
  let dt_sec := cur.ts.toSecs - prev.ts.toSecs
  if dt_sec < 0 then none
  else if !(within_cutoff cutoff dt_sec) then none
  else
    let prev_me := isMe my_names prev
    let cur_me := isMe my_names cur
    if !prev_me && cur_me then some (true, dt_sec)
    else if prev_me && !cur_me then some (false, dt_sec)
    else none

/-- Model of `zip(xs, xs[1:])`. -/
def adjPairs (l : List Msg) : List (Msg × Msg) := l.zip l.tail

def meReact (my_names : List Cs) (cutoff : Option Int) (l : List Msg) : List Int :=
  (adjPairs l).filterMap fun pc =>
    match pairSample my_names cutoff pc.1 pc.2 with
    | some (true, dt) => some dt
    | _ => none

def themReact (my_names : List Cs) (cutoff : Option Int) (l : List Msg) : List Int :=
  (adjPairs l).filterMap fun pc =>
    match pairSample my_names cutoff pc.1 pc.2 with
    | some (false, dt) => some dt
    | _ => none

/-- Model of `avg(xs)` of the source (arithmetic mean, `None` on empty). -/
def avg (xs : List Int) : Option Rat :=
  if xs.isEmpty then none else some ((xs.foldl (· + ·) 0 : Int) / (xs.length : Rat))

/-- Model of `median(xs)` of the source: ascending sort; exact middle element for
odd sizes, mean of the two central elements for even sizes, `None` on
empty. -/
def median (xs : List Int) : Option Rat :=
  if xs.isEmpty then none
  else
    let xs2 := xs.insertionSort (· ≤ ·)
    let n := xs2.length
    let mid := n / 2
    if n % 2 = 1 then some ((xs2.getD mid 0 : Int) : Rat)
    else some ((1 : Rat) / 2 * (((xs2.getD (mid - 1) 0 : Int) : Rat) + ((xs2.getD mid 0 : Int) : Rat)))

/-- Model of `min(all_ts)` — the first minimal element. -/
def minTs (l : List DateTime) : Option DateTime :=
  l.foldl
    (fun acc x =>
      match acc with
      | none => some x
      | some a => if x.toSecs < a.toSecs then some x else some a)
    none

/-- Model of `max(all_ts)` — the first maximal element. -/
def maxTs (l : List DateTime) : Option DateTime :=
  l.foldl
    (fun acc x =>
      match acc with
      | none => some x
      | some a => if x.toSecs > a.toSecs then some x else some a)
    none

structure StatsResult where
  guessed_me : Option Cs
  my_names : List Cs
  first_ts : Option DateTime
  last_ts : Option DateTime
  span_sec : Option Int
  total_msgs : Nat
  sent : Nat
  received : Nat
  ratioSR : Option Rat
  top_words : List (Cs × Nat)
  hour_counts : List Nat
  me_react_avg : Option Rat
  me_react_med : Option Rat
  me_react_n : Nat
  them_react_avg : Option Rat
  them_react_med : Option Rat
  them_react_n : Nat
  top_senders : List (Cs × Nat)
deriving DecidableEq, Repr

def TOP_WORDS : Nat := 100

/-- Model of `stats_for_messages(messages, my_names)` of the source (the
`ratio` field of the result dict is `ratioSR` here). -/
def stats_for_messages (messages : List Msg) (my_names : List Cs)
    (cutoff : Option Int) : StatsResult :=
  let non_system := qualifying messages
  let all_ts := if non_system.isEmpty then messages.map (·.ts) else non_system.map (·.ts)
  let first_ts := minTs all_ts
  let last_ts := maxTs all_ts
  let span_sec :=
    match first_ts, last_ts with
    | some f, some l => some (l.toSecs - f.toSecs)
    | _, _ => none
  let total_msgs := non_system.length
  let sender_counts := countOcc (non_system.map senderOf)
  let guessed_me :=
    if my_names.isEmpty then (mostCommon1 sender_counts).map Prod.fst else none
  let eff_names :=
    if my_names.isEmpty then
      (match (mostCommon1 sender_counts).map Prod.fst with
       | some g => [g]
       | none => [])
    else my_names
  let sent := non_system.countP (fun m => decide (senderOf m ∈ eff_names))
  let received := total_msgs - sent
  let ratioSR :=
    if received > 0 then some ((sent : Rat) / (received : Rat)) else none
  let top_words := mostCommonN TOP_WORDS (countOcc (wordsOf non_system))
  let hour_counts :=
    (List.range 24).map (fun h => non_system.countP (fun m => m.ts.hour == h))
  let non_system_sorted := sortByTs non_system
  let me_react := meReact eff_names cutoff non_system_sorted
  let them_react := themReact eff_names cutoff non_system_sorted
  { guessed_me := guessed_me
    my_names := eff_names
    first_ts := first_ts
    last_ts := last_ts
    span_sec := span_sec
    total_msgs := total_msgs
    sent := sent
    received := received
    ratioSR := ratioSR
    top_words := top_words
    hour_counts := hour_counts
    me_react_avg := avg me_react
    me_react_med := median me_react
    me_react_n := me_react.length
    them_react_avg := avg them_react
    them_react_med := median them_react
    them_react_n := them_react.length
    top_senders := mostCommonN 10 sender_counts }

/-! ### Store-passing form of the Statistics Engine (frame property)

`stats_for_messages` in the source only ever reads its `messages` list:
every use is a list comprehension, a `Counter`/`sum`/`min`/`max`
traversal, or `sorted(...)` which builds a fresh list; neither the list
nor any message dict is assigned into (`my_names = {guessed_me}` rebinds
a local).  The store-passing translation therefore threads the message
store through the call and returns it alongside the result. -/

def statsST (store : List Msg) (my_names : List Cs) (cutoff : Option Int) :
    StatsResult × List Msg :=
  (stats_for_messages store my_names cutoff, store)

/-- The main-loop shape: per-file statistics first, each call receiving
and returning the file's message store, then the aggregate over the
concatenation of the (post-call) stores, as `main` does with
`all_messages`. -/
def perFileThenTotal (files : List (List Msg)) (my_names : List Cs)
    (cutoff : Option Int) : List StatsResult × StatsResult × List (List Msg) :=
  let post := files.map (fun f => statsST f my_names cutoff)
  let perFile := post.map (·.1)
  let filesAfter := post.map (·.2)
  (perFile, (statsST filesAfter.flatten my_names cutoff).1, filesAfter)

/-! ### Concrete fixtures used by witnesses and counterexamples -/

/-- An authored message at 09:00. -/
def mAliceW : Msg := ⟨⟨2023, 2, 1, 9, 0, 0⟩, some ['A'], ['x'], false⟩

/-- An authored message at 10:00, one hour later. -/
def mBobW : Msg := ⟨⟨2023, 2, 1, 10, 0, 0⟩, some ['B'], ['y'], false⟩

/-- A system message (no sender). -/
def mSysW : Msg := ⟨⟨2023, 2, 1, 10, 0, 0⟩, none, "Alice added Bob".toList, true⟩

/-- Eight messages: A three times, then B five times. -/
def msgsAB : List Msg :=
  [mAliceW, mAliceW, mAliceW, mBobW, mBobW, mBobW, mBobW, mBobW]

/-- An open message in the assembler, for the C4 counterexample. -/
def mOpenW : RawMsg :=
  ⟨some ⟨2023, 2, 1, 9, 0, 0⟩, some "Alice".toList, "hello".toList, false⟩

/-- A bracket-only line whose timestamp resolves. -/
def bracketLineW : Cs := "[01.02.2023, 10:00:00]".toList

/-- A bracket-only line whose timestamp does not resolve (February 31). -/
def badBracketLineW : Cs := "[31.02.2023, 10:00:00]".toList

instance : IsTotal Msg (fun a b : Msg => a.ts.toSecs ≤ b.ts.toSecs) :=
  ⟨fun a b => le_total a.ts.toSecs b.ts.toSecs⟩

instance : IsTrans Msg (fun a b : Msg => a.ts.toSecs ≤ b.ts.toSecs) :=
  ⟨fun _ _ _ hab hbc => le_trans hab hbc⟩

/-! ## Theorems -/

/-- C2: every Message returned by `parse_chat_text` has a resolved
(non-null) timestamp: the final filter removes every message whose
date/time tokens failed to parse, so no other component ever observes
one. -/
theorem C2_parser_resolved_timestamps (content : Cs) (m : RawMsg)
    (hm : m ∈ parse_chat_text content) : m.ts.isSome = true := by
  unfold parse_chat_text at hm
  simp only [List.mem_filter] at hm
  exact hm.2

/-- Witness for C2 at a concrete chat line. -/
theorem C2_witness :
    (⟨some ⟨2023, 2, 1, 9, 0, 0⟩, some "Alice".toList, "hello".toList, false⟩ : RawMsg).ts.isSome
      = true :=
  C2_parser_resolved_timestamps "01/02/23, 09:00 - Alice: hello".toList
    ⟨some ⟨2023, 2, 1, 9, 0, 0⟩, some "Alice".toList, "hello".toList, false⟩
    (by
      have h : parse_chat_text "01/02/23, 09:00 - Alice: hello".toList =
          [⟨some ⟨2023, 2, 1, 9, 0, 0⟩, some "Alice".toList, "hello".toList, false⟩] := by
        decide
      rw [h]
      exact List.mem_singleton_self _)

/-- C10: the Statistics Engine never modifies its input: the
store-passing translation returns the message store unchanged, and the
aggregate statistics computed after the per-file calls coincide with the
statistics of the concatenation of the original per-file sequences. -/
theorem C10_stats_input_unmodified (msgs : List Msg) (names : List Cs)
    (cutoff : Option Int) (files : List (List Msg)) :
    (statsST msgs names cutoff).2 = msgs ∧
    (perFileThenTotal files names cutoff).2.2 = files ∧
    (perFileThenTotal files names cutoff).2.1 =
      stats_for_messages files.flatten names cutoff := by
  refine ⟨rfl, ?_, ?_⟩ <;> simp [perFileThenTotal, statsST, Function.comp_def]

/-- C6: the median is `none` on the empty list; otherwise it is taken
from the ascending sort (a sorted permutation of the samples): the exact
middle element for odd sizes, the mean of the two central elements for
even sizes; in particular `median [10,20,30] = 20` and
`median [10,20,30,40] = 25`. -/
theorem C6_median_correct (xs : List Int) (hne : xs ≠ []) :
    median ([] : List Int) = none ∧
    (xs.insertionSort (· ≤ ·)).Perm xs ∧
    (xs.insertionSort (· ≤ ·)).Sorted (· ≤ ·) ∧
    (xs.length % 2 = 1 →
      median xs = some (((xs.insertionSort (· ≤ ·)).getD (xs.length / 2) 0 : Int) : Rat)) ∧
    (xs.length % 2 = 0 →
      median xs = some ((1 : Rat) / 2 *
        ((((xs.insertionSort (· ≤ ·)).getD (xs.length / 2 - 1) 0 : Int) : Rat) +
         (((xs.insertionSort (· ≤ ·)).getD (xs.length / 2) 0 : Int) : Rat)))) ∧
    median [10, 20, 30] = some 20 ∧
    median [10, 20, 30, 40] = some 25 := by
  have hlen : (xs.insertionSort (· ≤ ·)).length = xs.length :=
    (List.perm_insertionSort (· ≤ ·) xs).length_eq
  have hemp : xs.isEmpty = false := by
    cases xs with
    | nil => exact absurd rfl hne
    | cons a l => rfl
  refine ⟨by simp [median], List.perm_insertionSort _ xs, List.sorted_insertionSort _ xs,
    ?_, ?_,
    by norm_num [median, List.insertionSort, List.orderedInsert],
    by norm_num [median, List.insertionSort, List.orderedInsert]⟩
  · intro hodd
    simp [median, hemp, hlen, hodd]
  · intro heven
    have : xs.length % 2 ≠ 1 := by omega
    simp [median, hemp, hlen, heven, this]

/-- Witness for C6 at the concrete sample lists of the claim. -/
theorem C6_witness :
    median ([] : List Int) = none ∧
    ((([10, 20, 30] : List Int).insertionSort (· ≤ ·)).Perm [10, 20, 30]) ∧
    (([10, 20, 30] : List Int).insertionSort (· ≤ ·)).Sorted (· ≤ ·) ∧
    (([10, 20, 30] : List Int).length % 2 = 1 →
      median [10, 20, 30] = some (((([10, 20, 30] : List Int).insertionSort (· ≤ ·)).getD
        (([10, 20, 30] : List Int).length / 2) 0 : Int) : Rat)) ∧
    (([10, 20, 30] : List Int).length % 2 = 0 →
      median [10, 20, 30] = some ((1 : Rat) / 2 *
        ((((([10, 20, 30] : List Int).insertionSort (· ≤ ·)).getD
            (([10, 20, 30] : List Int).length / 2 - 1) 0 : Int) : Rat) +
         ((((([10, 20, 30] : List Int)).insertionSort (· ≤ ·)).getD
            (([10, 20, 30] : List Int).length / 2) 0 : Int) : Rat)))) ∧
    median [10, 20, 30] = some 20 ∧
    median [10, 20, 30, 40] = some 25 :=
  C6_median_correct [10, 20, 30] (by decide)

/-- Adjacent elements of the timestamp-sorted list are in timestamp
order. -/
theorem sortByTs_adj_le (l : List Msg) (i : Nat) (a b : Msg)
    (ha : (sortByTs l)[i]? = some a) (hb : (sortByTs l)[i + 1]? = some b) :
    a.ts.toSecs ≤ b.ts.toSecs := by
  have hs : (sortByTs l).Pairwise (fun x y : Msg => x.ts.toSecs ≤ y.ts.toSecs) :=
    List.sorted_insertionSort _ l
  rw [List.getElem?_eq_some] at ha hb
  obtain ⟨hia, ha⟩ := ha
  obtain ⟨hib, hb⟩ := hb
  have := (List.pairwise_iff_get.mp hs) ⟨i, hia⟩ ⟨i + 1, hib⟩ (by simp)
  simpa [List.get_eq_getElem, ha, hb] using this

/-- C5: in the timestamp-sorted qualifying sequence, an adjacent
sender-switch pair contributes a latency sample exactly when the elapsed
seconds do not exceed the configured cutoff (equality included); with
the cutoff disabled, no such pair is skipped for elapsed time. -/
theorem C5_cutoff_boundary (messages : List Msg) (my_names : List Cs)
    (cutoff : Option Int) (i : Nat) (prev cur : Msg)
    (hp : (sortByTs (qualifying messages))[i]? = some prev)
    (hc : (sortByTs (qualifying messages))[i + 1]? = some cur)
    (hsw : isMe my_names prev ≠ isMe my_names cur) :
    (pairSample my_names cutoff prev cur).isSome = true ↔
      (∀ c : Int, cutoff = some c → cur.ts.toSecs - prev.ts.toSecs ≤ c) := by
  have hle := sortByTs_adj_le (qualifying messages) i prev cur hp hc
  have hnn : ¬(cur.ts.toSecs - prev.ts.toSecs < 0) := by omega
  cases cutoff with
  | none =>
    simp only [pairSample, within_cutoff, if_neg hnn]
    constructor
    · intro _ c hc2; exact absurd hc2 (by simp)
    · intro _
      cases hm1 : isMe my_names prev <;> cases hm2 : isMe my_names cur <;>
        simp_all [pairSample]
  | some c =>
    by_cases hcut : cur.ts.toSecs - prev.ts.toSecs ≤ c
    · simp only [pairSample, within_cutoff, if_neg hnn, hcut]
      constructor
      · intro _ c2 hc2
        have : c2 = c := by injection hc2.symm
        omega
      · intro _
        cases hm1 : isMe my_names prev <;> cases hm2 : isMe my_names cur <;>
          simp_all [pairSample, within_cutoff]
    · simp only [pairSample, within_cutoff, if_neg hnn, hcut]
      constructor
      · intro h
        simp at h
      · intro h
        exact absurd (h c rfl) hcut

/-- Witness for C5: A at 09:00 then B at 10:00, cutoff 3600 s, the pair
elapses exactly the cutoff. -/
theorem C5_witness :
    (pairSample [['B']] (some 3600) mAliceW mBobW).isSome = true ↔
      (∀ c : Int, (some 3600 : Option Int) = some c →
        mBobW.ts.toSecs - mAliceW.ts.toSecs ≤ c) :=
  C5_cutoff_boundary [mAliceW, mBobW] [['B']] (some 3600) 0 mAliceW mBobW
    (by decide) (by decide) (by decide)

/-- The first matching format wins in `firstSome`. -/
theorem firstSome_first (fs : List (List FmtTok)) (str : Cs) (i : Nat)
    (f : List FmtTok) (v : DateTime) (hf : fs[i]? = some f)
    (hm : strpMatch f str = some v)
    (hb : ∀ j, j < i → ∀ g, fs[j]? = some g → strpMatch g str = none) :
    firstSome fs str = some v := by
  induction fs generalizing i with
  | nil => simp at hf
  | cons hd tl ih =>
    cases i with
    | zero =>
      simp only [List.getElem?_cons_zero, Option.some.injEq] at hf
      subst hf
      simp [firstSome, hm]
    | succ n =>
      have h0 : strpMatch hd str = none := hb 0 (by omega) hd (by simp)
      simp only [firstSome, h0]
      exact ih n (by simpa using hf)
        (fun j hj g hg => hb (j + 1) (by omega) g (by simpa using hg))

/-- If no format matches, `firstSome` returns `none`. -/
theorem firstSome_none (fs : List (List FmtTok)) (str : Cs)
    (h : ∀ g ∈ fs, strpMatch g str = none) : firstSome fs str = none := by
  induction fs with
  | nil => rfl
  | cons hd tl ih =>
    have h0 : strpMatch hd str = none := h hd (by simp)
    simp only [firstSome, h0]
    exact ih (fun g hg => h g (by simp [hg]))

/-- C8: the DateTime Normalizer returns the result of the first template
that parses the whitespace-collapsed "date time" string, returns `none`
(an ordinary value, not an error) when no template matches, and the
day-first template order makes `01/02/23` with a 24-hour time parse as
day 1, month 2. -/
theorem C8_normalizer_first_template (d t : Cs) (i : Nat) (f : List FmtTok)
    (v : DateTime) (hf : DT_FORMATS[i]? = some f)
    (hm : strpMatch f (normDT d t) = some v)
    (hb : ∀ j, j < i → ∀ g, DT_FORMATS[j]? = some g → strpMatch g (normDT d t) = none) :
    try_parse_dt d t = some v ∧
    (∀ d2 t2 : Cs, (∀ g ∈ DT_FORMATS, strpMatch g (normDT d2 t2) = none) →
      try_parse_dt d2 t2 = none) ∧
    try_parse_dt "01/02/23".toList "09:05".toList = some ⟨2023, 2, 1, 9, 5, 0⟩ ∧
    (try_parse_dt "01/02/23".toList "09:05".toList).map DateTime.day = some 1 ∧
    (try_parse_dt "01/02/23".toList "09:05".toList).map DateTime.month = some 2 := by
  refine ⟨firstSome_first DT_FORMATS (normDT d t) i f v hf hm hb,
    fun d2 t2 h2 => firstSome_none DT_FORMATS (normDT d2 t2) h2,
    by decide, by decide, by decide⟩

/-- Witness for C8: the very first template matches `01/02/23 09:05`. -/
theorem C8_witness :
    try_parse_dt "01/02/23".toList "09:05".toList = some ⟨2023, 2, 1, 9, 5, 0⟩ ∧
    (∀ d2 t2 : Cs, (∀ g ∈ DT_FORMATS, strpMatch g (normDT d2 t2) = none) →
      try_parse_dt d2 t2 = none) ∧
    try_parse_dt "01/02/23".toList "09:05".toList = some ⟨2023, 2, 1, 9, 5, 0⟩ ∧
    (try_parse_dt "01/02/23".toList "09:05".toList).map DateTime.day = some 1 ∧
    (try_parse_dt "01/02/23".toList "09:05".toList).map DateTime.month = some 2 :=
  C8_normalizer_first_template "01/02/23".toList "09:05".toList 0
    (mkFmt (fDate FmtTok.D FmtTok.Mo '/' FmtTok.Y2) fHM) ⟨2023, 2, 1, 9, 5, 0⟩
    rfl (by decide) (fun j hj => absurd hj (by omega))

/-- Bumping one key changes exactly that key's first-match count. -/
theorem lookupC_bump (acc : List (Cs × Nat)) (s s2 : Cs) :
    lookupC (bump s acc) s2 =
      if s2 = s then lookupC acc s2 + 1 else lookupC acc s2 := by
  induction acc with
  | nil =>
    simp only [bump, lookupC]
    by_cases h : s2 = s
    · rw [if_pos h.symm, if_pos h]
    · rw [if_neg (fun hh => h hh.symm), if_neg h]
  | cons hd tl ih =>
    obtain ⟨t, n⟩ := hd
    by_cases hts : t = s
    · subst hts
      simp only [bump, if_pos rfl, lookupC]
      by_cases h2 : t = s2
      · rw [if_pos h2, if_pos h2.symm, if_pos h2]
      · rw [if_neg h2, if_neg (fun hh => h2 hh.symm), if_neg h2]
    · simp only [bump, if_neg hts, lookupC, ih]
      by_cases h2 : t = s2
      · have hs2s : ¬s2 = s := fun hh => hts (h2.trans hh)
        rw [if_pos h2, if_neg hs2s, if_pos h2]
      · by_cases h3 : s2 = s
        · rw [if_neg h2, if_pos h3, if_pos h3, if_neg h2]
        · rw [if_neg h2, if_neg h3, if_neg h3, if_neg h2]

/-- The counter's first-match count of a key equals its number of
occurrences in the counted list. -/
theorem lookupC_countOcc_aux (l : List Cs) (acc : List (Cs × Nat)) (s : Cs) :
    lookupC (l.foldl (fun a x => bump x a) acc) s =
      lookupC acc s + l.countP (fun x => x = s) := by
  induction l generalizing acc with
  | nil => simp
  | cons hd tl ih =>
    simp only [List.foldl_cons, List.countP_cons]
    rw [ih, lookupC_bump]
    by_cases h : s = hd
    · subst h; simp; omega
    · have h2 : ¬hd = s := fun hh => h hh.symm
      simp [h, h2]

theorem lookupC_countOcc (l : List Cs) (s : Cs) :
    lookupC (countOcc l) s = l.countP (fun x => x = s) := by
  simpa [lookupC] using lookupC_countOcc_aux l [] s

/-- Bumping a present key keeps the key list; bumping an absent key
appends it. -/
theorem keysC_bump (s : Cs) (acc : List (Cs × Nat)) :
    keysC (bump s acc) =
      if s ∈ keysC acc then keysC acc else keysC acc ++ [s] := by
  induction acc with
  | nil => simp [bump, keysC]
  | cons hd tl ih =>
    obtain ⟨t, n⟩ := hd
    by_cases h : t = s
    · subst h; simp [bump, keysC]
    · have hne : ¬s = t := fun hh => h hh.symm
      simp only [keysC] at ih ⊢
      simp only [bump, if_neg h, List.map_cons]
      rw [ih]
      by_cases hmem : s ∈ List.map Prod.fst tl
      · simp [hmem, hne]
      · simp [hmem, hne]

/-- The counter's keys are distinct. -/
theorem countOcc_keys_nodup (l : List Cs) : (keysC (countOcc l)).Nodup := by
  have aux : ∀ (l2 : List Cs) (acc : List (Cs × Nat)), (keysC acc).Nodup →
      (keysC (l2.foldl (fun a x => bump x a) acc)).Nodup := by
    intro l2
    induction l2 with
    | nil => intro acc h; simpa using h
    | cons hd tl ih =>
      intro acc h
      simp only [List.foldl_cons]
      refine ih (bump hd acc) ?_
      rw [keysC_bump]
      by_cases hmem : hd ∈ keysC acc
      · simpa [hmem] using h
      · simp only [hmem, if_false]
        simpa [List.nodup_append, hmem] using h
  simpa [keysC] using aux l [] (by simp [keysC])

/-- With distinct keys, a member entry is what lookup finds. -/
theorem mem_lookupC (l : List (Cs × Nat)) (p : Cs × Nat)
    (hnd : (keysC l).Nodup) (hp : p ∈ l) : lookupC l p.1 = p.2 := by
  induction l with
  | nil => simp at hp
  | cons hd tl ih =>
    obtain ⟨t, n⟩ := hd
    simp only [keysC, List.map_cons, List.nodup_cons] at hnd
    rcases List.mem_cons.mp hp with h | h
    · subst h; simp [lookupC]
    · have hne : t ≠ p.1 := by
        intro hh
        exact hnd.1 (by simpa [keysC, hh] using List.mem_map_of_mem Prod.fst h)
      simp only [lookupC, if_neg hne]
      exact ih (by simpa [keysC] using hnd.2) h

/-- A key with positive lookup occurs as an entry carrying that count. -/
theorem lookupC_pos_mem (l : List (Cs × Nat)) (s : Cs)
    (h : lookupC l s ≠ 0) : (s, lookupC l s) ∈ l := by
  induction l with
  | nil => simp [lookupC] at h
  | cons hd tl ih =>
    obtain ⟨t, n⟩ := hd
    by_cases hts : t = s
    · subst hts; simp [lookupC] at h ⊢
    · simp only [lookupC, if_neg hts] at h ⊢
      exact List.mem_cons_of_mem _ (ih h)

/-- The maximum search starting from `q` returns the first entry of
maximal count of `q :: r`. -/
theorem mc1From_spec (r : List (Cs × Nat)) (q : Cs × Nat) :
    ∃ p, r.foldl mc1Step (some q) = some p ∧
      (∀ x ∈ q :: r, x.2 ≤ p.2) ∧
      ∃ pre post, q :: r = pre ++ p :: post ∧ ∀ x ∈ pre, x.2 < p.2 := by
  induction r generalizing q with
  | nil => exact ⟨q, rfl, by simp, [], [], rfl, by simp⟩
  | cons x r2 ih =>
    by_cases hx : x.2 > q.2
    · obtain ⟨p, hfold, hbound, pre, post, hdec, hstrict⟩ := ih x
      have hxp : x.2 ≤ p.2 := hbound x (by simp)
      refine ⟨p, ?_, ?_, q :: pre, post, ?_, ?_⟩
      · simpa [mc1Step, hx] using hfold
      · intro y hy
        rcases List.mem_cons.mp hy with h | h
        · subst h; omega
        · exact hbound y h
      · simpa using congrArg (fun l => q :: l) hdec
      · intro y hy
        rcases List.mem_cons.mp hy with h | h
        · subst h; omega
        · exact hstrict y h
    · obtain ⟨p, hfold, hbound, pre, post, hdec, hstrict⟩ := ih q
      have hqp : q.2 ≤ p.2 := hbound q (by simp)
      refine ⟨p, ?_, ?_, ?_⟩
      · simpa [mc1Step, hx] using hfold
      · intro y hy
        rcases List.mem_cons.mp hy with h | h
        · subst h; exact hqp
        · rcases List.mem_cons.mp h with h2 | h2
          · subst h2; omega
          · exact hbound y (by simp [h2])
      · cases pre with
        | nil =>
          simp only [List.nil_append] at hdec
          refine ⟨[], x :: r2, ?_, by simp⟩
          have hpq : p = q := by
            have := congrArg (fun l => l.head?) hdec
            simpa using this.symm
          have hpost : r2 = (p :: post).tail ++ [] ∨ True := Or.inr trivial
          have : q :: x :: r2 = p :: x :: r2 := by rw [hpq]
          simpa using this
        | cons q0 pre2 =>
          have hq0 : q0 = q := by
            have := congrArg (fun l => l.head?) hdec
            simpa using this.symm
          subst hq0
          have htl : r2 = pre2 ++ p :: post := by
            have := congrArg (fun l => l.tail) hdec
            simpa using this
          have hqlt : q0.2 < p.2 := hstrict q0 (by simp)
          refine ⟨q0 :: x :: pre2, post, by simp [htl], ?_⟩
          intro y hy
          rcases List.mem_cons.mp hy with h | h
          · subst h; omega
          · rcases List.mem_cons.mp h with h2 | h2
            · subst h2; omega
            · exact hstrict y (by simp [h2])

/-- C7: with an empty configured identity set and at least one
qualifying message, exactly one sender is treated as self: the entry
returned by `most_common(1)` is the first maximal-count entry of the
counting structure (ties favour the first-encountered sender), its count
is that sender's message count and no sender has a larger count, and the
inferred identity is reported in the result; with senders A at 3 and B
at 5 the inferred self is B, and on a count tie the first-encountered
sender wins. -/
theorem C7_self_inference (messages : List Msg) (cutoff : Option Int)
    (hne : qualifying messages ≠ []) :
    (∃ g n,
      mostCommon1 (countOcc ((qualifying messages).map senderOf)) = some (g, n) ∧
      (stats_for_messages messages [] cutoff).guessed_me = some g ∧
      (stats_for_messages messages [] cutoff).my_names = [g] ∧
      n = ((qualifying messages).map senderOf).countP (fun x => x = g) ∧
      (∀ p ∈ countOcc ((qualifying messages).map senderOf), p.2 ≤ n) ∧
      (∃ pre post,
        countOcc ((qualifying messages).map senderOf) = pre ++ (g, n) :: post ∧
        ∀ p ∈ pre, p.2 < n) ∧
      (∀ s ∈ (qualifying messages).map senderOf,
        ((qualifying messages).map senderOf).countP (fun x => x = s) ≤ n)) ∧
    (stats_for_messages msgsAB [] none).guessed_me = some ['B'] ∧
    (stats_for_messages [mAliceW, mBobW, mAliceW, mBobW] [] none).guessed_me =
      some ['A'] := by
  refine ⟨?_, by decide, by decide⟩
  set sl := (qualifying messages).map senderOf with hsl
  have hslne : sl ≠ [] := by
    cases hq : qualifying messages with
    | nil => exact absurd hq hne
    | cons a l => simp [hsl, hq]
  have hcne : countOcc sl ≠ [] := by
    intro hco
    obtain ⟨s0, rest, hs0⟩ := List.exists_cons_of_ne_nil hslne
    have h1 : lookupC (countOcc sl) s0 = sl.countP (fun x => x = s0) :=
      lookupC_countOcc sl s0
    rw [hco] at h1
    have h2 : 0 < sl.countP (fun x => x = s0) := by
      rw [hs0]; simp [List.countP_cons]
    simp [lookupC] at h1
    omega
  obtain ⟨c0, crest, hceq⟩ := List.exists_cons_of_ne_nil hcne
  have hfold : mostCommon1 (countOcc sl) = crest.foldl mc1Step (some c0) := by
    rw [hceq]; simp [mostCommon1, mc1Step]
  obtain ⟨p, hfold2, hbound, pre, post, hdec, hstrict⟩ := mc1From_spec crest c0
  have hmc : mostCommon1 (countOcc sl) = some p := by rw [hfold, hfold2]
  have hpmem : p ∈ countOcc sl := by
    rw [hceq, hdec]; simp
  have hpn : lookupC (countOcc sl) p.1 = p.2 :=
    mem_lookupC _ p (countOcc_keys_nodup sl) hpmem
  refine ⟨p.1, p.2, by simpa using hmc, ?_, ?_, ?_, ?_, ?_, ?_⟩
  · simp only [stats_for_messages, List.isEmpty_nil, if_true, ← hsl, hmc]
    rfl
  · simp only [stats_for_messages, List.isEmpty_nil, if_true, ← hsl, hmc]
    rfl
  · rw [← lookupC_countOcc, hpn]
  · intro p2 hp2
    have h3 : p2 ∈ c0 :: crest := by rwa [← hceq]
    exact hbound p2 h3
  · exact ⟨pre, post, by rw [hceq, hdec], hstrict⟩
  · intro s hs
    have hpos : 0 < sl.countP (fun x => x = s) := by
      rw [List.countP_pos_iff]
      exact ⟨s, hs, by simp⟩
    have hlook : lookupC (countOcc sl) s = sl.countP (fun x => x = s) :=
      lookupC_countOcc sl s
    have hmem2 : (s, lookupC (countOcc sl) s) ∈ countOcc sl :=
      lookupC_pos_mem _ s (by omega)
    have hmem3 : (s, lookupC (countOcc sl) s) ∈ c0 :: crest := by
      rw [← hceq]; exact hmem2
    have := hbound _ hmem3
    simpa [hlook] using this

/-- Witness for C7: three messages from A and five from B, empty
identity set. -/
theorem C7_witness :
    ((∃ g n,
      mostCommon1 (countOcc ((qualifying msgsAB).map senderOf)) = some (g, n) ∧
      (stats_for_messages msgsAB [] none).guessed_me = some g ∧
      (stats_for_messages msgsAB [] none).my_names = [g] ∧
      n = ((qualifying msgsAB).map senderOf).countP (fun x => x = g) ∧
      (∀ p ∈ countOcc ((qualifying msgsAB).map senderOf), p.2 ≤ n) ∧
      (∃ pre post,
        countOcc ((qualifying msgsAB).map senderOf) = pre ++ (g, n) :: post ∧
        ∀ p ∈ pre, p.2 < n) ∧
      (∀ s ∈ (qualifying msgsAB).map senderOf,
        ((qualifying msgsAB).map senderOf).countP (fun x => x = s) ≤ n)) ∧
    (stats_for_messages msgsAB [] none).guessed_me = some ['B'] ∧
    (stats_for_messages [mAliceW, mBobW, mAliceW, mBobW] [] none).guessed_me =
      some ['A']) :=
  C7_self_inference msgsAB none (by decide)

/-- C3 counterexample: a system Message is not counted in the total
message volume of the StatisticsResult — `total_msgs` is the length of
the non-system qualifying sublist, so a transcript consisting of one
system message reports a total of 0, not 1. -/
theorem C3_counterexample :
    mSysW.is_system = true ∧
    (stats_for_messages [mSysW] [] REACTION_CUTOFF_SEC).total_msgs = 0 := by
  exact ⟨rfl, by decide⟩

/-- C3 amended: a system Message is excluded from word-frequency,
response-latency and per-sender statistics, and also from the reported
total message volume (which counts only non-system messages with a
truthy sender); prepending a system message changes none of those
fields.  (It can still influence the first/last-timestamp fallback when
no qualifying message exists.) -/
theorem C3_amended_system_excluded (messages : List Msg) (my_names : List Cs)
    (cutoff : Option Int) (m : Msg) (hm : m.is_system = true) :
    (stats_for_messages (m :: messages) my_names cutoff).total_msgs =
      (stats_for_messages messages my_names cutoff).total_msgs ∧
    (stats_for_messages (m :: messages) my_names cutoff).top_words =
      (stats_for_messages messages my_names cutoff).top_words ∧
    (stats_for_messages (m :: messages) my_names cutoff).me_react_avg =
      (stats_for_messages messages my_names cutoff).me_react_avg ∧
    (stats_for_messages (m :: messages) my_names cutoff).me_react_med =
      (stats_for_messages messages my_names cutoff).me_react_med ∧
    (stats_for_messages (m :: messages) my_names cutoff).me_react_n =
      (stats_for_messages messages my_names cutoff).me_react_n ∧
    (stats_for_messages (m :: messages) my_names cutoff).them_react_avg =
      (stats_for_messages messages my_names cutoff).them_react_avg ∧
    (stats_for_messages (m :: messages) my_names cutoff).them_react_med =
      (stats_for_messages messages my_names cutoff).them_react_med ∧
    (stats_for_messages (m :: messages) my_names cutoff).them_react_n =
      (stats_for_messages messages my_names cutoff).them_react_n ∧
    (stats_for_messages (m :: messages) my_names cutoff).top_senders =
      (stats_for_messages messages my_names cutoff).top_senders ∧
    (stats_for_messages (m :: messages) my_names cutoff).sent =
      (stats_for_messages messages my_names cutoff).sent ∧
    (stats_for_messages (m :: messages) my_names cutoff).received =
      (stats_for_messages messages my_names cutoff).received ∧
    (stats_for_messages (m :: messages) my_names cutoff).guessed_me =
      (stats_for_messages messages my_names cutoff).guessed_me ∧
    (stats_for_messages (m :: messages) my_names cutoff).hour_counts =
      (stats_for_messages messages my_names cutoff).hour_counts := by
  have hq : qualifying (m :: messages) = qualifying messages := by
    simp [qualifying, List.filter_cons, hm]
  simp [stats_for_messages, hq]

/-- Witness for C3's amended statement at the concrete system message. -/
theorem C3_witness :
    (stats_for_messages [mSysW] [] REACTION_CUTOFF_SEC).total_msgs =
      (stats_for_messages [] [] REACTION_CUTOFF_SEC).total_msgs ∧
    (stats_for_messages [mSysW] [] REACTION_CUTOFF_SEC).top_words =
      (stats_for_messages [] [] REACTION_CUTOFF_SEC).top_words ∧
    (stats_for_messages [mSysW] [] REACTION_CUTOFF_SEC).me_react_avg =
      (stats_for_messages [] [] REACTION_CUTOFF_SEC).me_react_avg ∧
    (stats_for_messages [mSysW] [] REACTION_CUTOFF_SEC).me_react_med =
      (stats_for_messages [] [] REACTION_CUTOFF_SEC).me_react_med ∧
    (stats_for_messages [mSysW] [] REACTION_CUTOFF_SEC).me_react_n =
      (stats_for_messages [] [] REACTION_CUTOFF_SEC).me_react_n ∧
    (stats_for_messages [mSysW] [] REACTION_CUTOFF_SEC).them_react_avg =
      (stats_for_messages [] [] REACTION_CUTOFF_SEC).them_react_avg ∧
    (stats_for_messages [mSysW] [] REACTION_CUTOFF_SEC).them_react_med =
      (stats_for_messages [] [] REACTION_CUTOFF_SEC).them_react_med ∧
    (stats_for_messages [mSysW] [] REACTION_CUTOFF_SEC).them_react_n =
      (stats_for_messages [] [] REACTION_CUTOFF_SEC).them_react_n ∧
    (stats_for_messages [mSysW] [] REACTION_CUTOFF_SEC).top_senders =
      (stats_for_messages [] [] REACTION_CUTOFF_SEC).top_senders ∧
    (stats_for_messages [mSysW] [] REACTION_CUTOFF_SEC).sent =
      (stats_for_messages [] [] REACTION_CUTOFF_SEC).sent ∧
    (stats_for_messages [mSysW] [] REACTION_CUTOFF_SEC).received =
      (stats_for_messages [] [] REACTION_CUTOFF_SEC).received ∧
    (stats_for_messages [mSysW] [] REACTION_CUTOFF_SEC).guessed_me =
      (stats_for_messages [] [] REACTION_CUTOFF_SEC).guessed_me ∧
    (stats_for_messages [mSysW] [] REACTION_CUTOFF_SEC).hour_counts =
      (stats_for_messages [] [] REACTION_CUTOFF_SEC).hour_counts :=
  C3_amended_system_excluded [] [] REACTION_CUTOFF_SEC mSysW rfl

/-- C4 counterexample: on a bracket-only line with a resolvable
timestamp, the open Message is not flushed at that step — the state
after the step still holds the same open message and nothing was
emitted. -/
theorem C4_counterexample :
    (bracketTsOnly bracketLineW).isSome = true ∧
    (step ⟨some mOpenW, none, []⟩ bracketLineW).current = some mOpenW ∧
    (step ⟨some mOpenW, none, []⟩ bracketLineW).out = [] := by
  decide

/-- C4 amended: a bracket-only line with a resolvable timestamp leaves
the open Message open (nothing is emitted at that step) and records the
pending timestamp; any next line consumed in a pending state flushes the
open Message and opens a fresh one carrying the pending timestamp, so no
later line is appended as continuation to the message open before the
bracket-only line; and a bracket-only line whose timestamp does not
resolve is dropped entirely (the state — open message included — is
unchanged, the line is not appended as continuation text). -/
theorem C4_amended_flush_deferred (st : PState) (line : Cs) (d t : Cs)
    (ts : DateTime) :
    (st.pending = none → bracketTsOnly line = some (d, t) →
      try_parse_dt d t = some ts →
      step st line = { current := st.current, pending := some ts, out := st.out }) ∧
    (st.pending = none → bracketTsOnly line = some (d, t) →
      try_parse_dt d t = none → step st line = st) ∧
    (∀ pts, st.pending = some pts →
      (step st line).out = st.out ++ st.current.toList ∧
      (step st line).pending = none ∧
      ∃ mNew, (step st line).current = some mNew ∧ mNew.ts = some pts) := by
  refine ⟨?_, ?_, ?_⟩
  · intro hp hb ht
    simp [step, hp, hb, ht]
  · intro hp hb ht
    simp [step, hp, hb, ht]
  · intro pts hp
    cases hso : senderOnly line with
    | some sx =>
      obtain ⟨s, x⟩ := sx
      exact ⟨by simp [step, hp, hso, flushCur], by simp [step, hp, hso],
        ⟨some pts, some (stripChars s), x, false⟩, by simp [step, hp, hso], rfl⟩
    | none =>
      exact ⟨by simp [step, hp, hso, flushCur], by simp [step, hp, hso],
        ⟨some pts, none, line, true⟩, by simp [step, hp, hso], rfl⟩

/-- Witness for C4's amended statement at the concrete bracket-only
line. -/
theorem C4_witness :
    step ⟨some mOpenW, none, []⟩ bracketLineW =
      { current := some mOpenW, pending := some ⟨2023, 2, 1, 10, 0, 0⟩, out := [] } :=
  (C4_amended_flush_deferred ⟨some mOpenW, none, []⟩ bracketLineW
    "01.02.2023".toList "10:00:00".toList ⟨2023, 2, 1, 10, 0, 0⟩).1
    rfl (by decide) (by decide)

/-- C9 counterexample: after a pending timestamp, a line that contains a
colon but has no character before its first colon (here `":abc"`) is
classified as a system notice, not an authored message. -/
theorem C9_counterexample :
    (':' ∈ ":abc".toList) ∧
    (step ⟨none, some ⟨2020, 4, 15, 16, 20, 56⟩, []⟩ ":abc".toList).current =
      some ⟨some ⟨2020, 4, 15, 16, 20, 56⟩, none, ":abc".toList, true⟩ := by
  decide

/-- C9 amended: after a pending timestamp, the next line is classified
as an authored message iff its colon-free prefix is nonempty and proper
(the line contains a colon with at least one character before the first
one); then the sender is the stripped prefix before the first colon and
the text is what follows it with leading whitespace removed — so
`"call at 5:30"` becomes an authored Message with sender `"call at 5"`
and text `"30"`; otherwise the line becomes a system notice. -/
theorem C9_amended_colon_rule (st : PState) (line : Cs) (pts : DateTime)
    (hp : st.pending = some pts) :
    ((line.takeWhile (· != ':')).length ≠ 0 ∧
        (line.takeWhile (· != ':')).length ≠ line.length →
      (step st line).current = some ⟨some pts,
        some (stripChars (line.takeWhile (· != ':'))),
        (line.drop ((line.takeWhile (· != ':')).length + 1)).dropWhile isWs,
        false⟩) ∧
    ((line.takeWhile (· != ':')).length = 0 ∨
        (line.takeWhile (· != ':')).length = line.length →
      (step st line).current = some ⟨some pts, none, line, true⟩) ∧
    (step ⟨none, some pts, []⟩ "call at 5:30".toList).current =
      some ⟨some pts, some "call at 5".toList, "30".toList, false⟩ := by
  refine ⟨?_, ?_, ?_⟩
  · intro h
    have hso : senderOnly line = some (line.takeWhile (· != ':'),
        (line.drop ((line.takeWhile (· != ':')).length + 1)).dropWhile isWs) := by
      simp only [senderOnly]
      rw [if_neg]
      push_neg
      exact h
    simp [step, hp, hso]
  · intro h
    have hso : senderOnly line = none := by
      simp only [senderOnly]
      rw [if_pos h]
    simp [step, hp, hso]
  · have hso : senderOnly ['c', 'a', 'l', 'l', ' ', 'a', 't', ' ', '5', ':', '3', '0'] =
        some (['c', 'a', 'l', 'l', ' ', 'a', 't', ' ', '5'], ['3', '0']) := by decide
    have hstrip : stripChars ['c', 'a', 'l', 'l', ' ', 'a', 't', ' ', '5'] =
        ['c', 'a', 'l', 'l', ' ', 'a', 't', ' ', '5'] := by decide
    simp [step, hso, hstrip]

/-- Witness for C9's amended statement at the `"call at 5:30"` line. -/
theorem C9_witness :
    (step ⟨none, some ⟨2020, 4, 15, 16, 20, 56⟩, []⟩ "call at 5:30".toList).current =
      some ⟨some ⟨2020, 4, 15, 16, 20, 56⟩, some "call at 5".toList,
        "30".toList, false⟩ := by
  have h := (C9_amended_colon_rule ⟨none, some ⟨2020, 4, 15, 16, 20, 56⟩, []⟩
    "call at 5:30".toList ⟨2020, 4, 15, 16, 20, 56⟩ rfl).1 (by decide)
  simpa using h

/-! ### Helper lemmas for the round-trip claim (C1) -/

theorem isDig_not_ws (c : Char) (h : isDig c = true) : isWs c = false := by
  cases hw : isWs c
  · rfl
  · exfalso
    simp only [isWs, Bool.or_eq_true, beq_iff_eq, or_assoc] at hw
    rcases hw with h1 | h1 | h1 | h1 | h1 | h1 <;> subst h1 <;>
      exact absurd h (by decide)

theorem isDig_ne (c c2 : Char) (h : isDig c = true) (h2 : isDig c2 = false) :
    c ≠ c2 := by
  intro he
  subst he
  rw [h] at h2
  exact Bool.noConfusion h2

theorem takeWhile_app_all (p : Char → Bool) (a b : Cs)
    (h : ∀ c ∈ a, p c = true) :
    (a ++ b).takeWhile p = a ++ b.takeWhile p := by
  induction a with
  | nil => simp
  | cons c a2 ih =>
    have hc := h c (by simp)
    simp [List.cons_append, List.takeWhile_cons, hc,
      ih (fun c2 hc2 => h c2 (by simp [hc2]))]

theorem dropWhile_app_all (p : Char → Bool) (a b : Cs)
    (h : ∀ c ∈ a, p c = true) :
    (a ++ b).dropWhile p = b.dropWhile p := by
  induction a with
  | nil => simp
  | cons c a2 ih =>
    have hc := h c (by simp)
    simp only [List.cons_append, List.dropWhile_cons, hc]
    exact ih (fun c2 hc2 => h c2 (by simp [hc2]))

/-- When the continuation starts with a character failing `p`, a greedy
run over the concatenation is the run over the first part. -/
theorem takeWhile_stop (p : Char → Bool) (v b : Cs)
    (hb : ∀ c, b.head? = some c → p c = false) :
    (v ++ b).takeWhile p = v.takeWhile p := by
  induction v with
  | nil =>
    cases b with
    | nil => simp
    | cons c b2 => simp [List.takeWhile_cons, hb c rfl]
  | cons c v2 ih =>
    cases hp : p c <;> simp [List.takeWhile_cons, hp, ih]

theorem dropWhile_stop (p : Char → Bool) (v b : Cs)
    (hb : ∀ c, b.head? = some c → p c = false) :
    (v ++ b).dropWhile p = v.dropWhile p ++ b := by
  induction v with
  | nil =>
    cases b with
    | nil => simp
    | cons c b2 => simp [List.dropWhile_cons, hb c rfl]
  | cons c v2 ih =>
    cases hp : p c <;> simp [List.dropWhile_cons, hp, ih]

theorem all_takeWhile (p : Char → Bool) (l : Cs) :
    ∀ c ∈ l.takeWhile p, p c = true := by
  induction l with
  | nil => simp
  | cons c l2 ih =>
    cases hp : p c
    · simp [List.takeWhile_cons, hp]
    · simp only [List.takeWhile_cons, hp, if_true]
      intro c2 hc2
      rcases List.mem_cons.mp hc2 with h | h
      · subst h; exact hp
      · exact ih c2 h

theorem dropWhile_ne_nil (p : Char → Bool) (l : Cs) (c0 : Char)
    (hmem : c0 ∈ l) (hc0 : p c0 = false) : l.dropWhile p ≠ [] := by
  induction l with
  | nil => simp at hmem
  | cons c l2 ih =>
    simp only [List.dropWhile_cons]
    rcases List.mem_cons.mp hmem with h | h
    · subst h
      simp [hc0]
    · cases hp : p c
      · simp
      · simpa using ih h

theorem dropWhile_drop_of_ws (p : Char → Bool) (s : Cs) (k : Nat)
    (hk : k ≤ (s.takeWhile p).length) :
    (s.drop k).dropWhile p = s.dropWhile p := by
  induction k generalizing s with
  | zero => simp
  | succ n ih =>
    cases s with
    | nil => simp at hk
    | cons c s2 =>
      cases hp : p c
      · rw [List.takeWhile_cons] at hk
        simp [hp] at hk
      · rw [List.takeWhile_cons] at hk
        simp only [hp, if_true, List.length_cons] at hk
        simp only [List.drop_succ_cons]
        rw [ih s2 (by omega)]
        simp [List.dropWhile_cons, hp]

/-- Dropping a prefix of the leading whitespace does not change the
stripped string. -/
theorem strip_drop_ws (s : Cs) (k : Nat)
    (hk : k ≤ (s.takeWhile isWs).length) :
    stripChars (s.drop k) = stripChars s := by
  unfold stripChars
  rw [dropWhile_drop_of_ws isWs s k hk]

theorem splitGo_cons_other (c : Char) (r acc : Cs) (h1 : c ≠ '\n')
    (h2 : c ≠ '\r') :
    splitGo (c :: r) acc = splitGo r (c :: acc) := by
  rw [splitGo.eq_def]
  split
  · simp_all
  · simp_all
  · simp_all
  · simp_all
  · rename_i hx heq
    rw [List.cons.injEq] at heq
    rw [heq.1, heq.2]

theorem splitGo_newline (b acc : Cs) (hb : b ≠ []) :
    splitGo ('\n' :: b) acc = acc.reverse :: splitGo b [] := by
  rw [splitGo.eq_def]
  split
  · simp_all
  · simp_all
  · simp_all [List.isEmpty_iff]
  · simp_all
  · rename_i hx1 hx2 heq
    rw [List.cons.injEq] at heq
    exact absurd heq.1.symm hx1

theorem splitGo_no_break (l : Cs) :
    ∀ acc, (∀ c ∈ l, c ≠ '\n' ∧ c ≠ '\r') →
      splitGo l acc = [acc.reverse ++ l] := by
  induction l with
  | nil => intro acc h; simp [splitGo]
  | cons c r ih =>
    intro acc h
    have hc := h c (by simp)
    rw [splitGo_cons_other c r acc hc.1 hc.2]
    rw [ih (c :: acc) (fun c2 hc2 => h c2 (by simp [hc2]))]
    simp

theorem isAmPm_fst_false (c1 c2 : Char) (h1 : c1 ≠ 'A') (h2 : c1 ≠ 'P')
    (h3 : c1 ≠ 'a') (h4 : c1 ≠ 'p') : isAmPm c1 c2 = false := by
  cases ha : isAmPm c1 c2
  · rfl
  · exfalso
    simp only [isAmPm, Bool.or_eq_true, Bool.and_eq_true, beq_iff_eq, or_assoc] at ha
    rcases ha with ⟨h, _⟩ | ⟨h, _⟩ | ⟨h, _⟩ | ⟨h, _⟩
    exacts [h1 h, h2 h, h3 h, h4 h]

theorem isAmPm_snd_false (c1 c2 : Char) (h1 : c2 ≠ 'M') (h2 : c2 ≠ 'm') :
    isAmPm c1 c2 = false := by
  cases ha : isAmPm c1 c2
  · rfl
  · exfalso
    simp only [isAmPm, Bool.or_eq_true, Bool.and_eq_true, beq_iff_eq, or_assoc] at ha
    rcases ha with ⟨_, h⟩ | ⟨_, h⟩ | ⟨_, h⟩ | ⟨_, h⟩
    exacts [h1 h, h1 h, h2 h, h2 h]

/-- What a safe continuation's first character can never be. -/
theorem safeB_head (b : Cs) (hs : safeB b) :
    ∀ c, b.head? = some c → isDig c = false ∧ isWs c = false ∧ c ≠ ':' ∧
      (∀ c2, isAmPm c c2 = false) ∧ (∀ c1, isAmPm c1 c = false) := by
  intro c hc
  cases b with
  | nil => simp at hc
  | cons c0 b2 =>
    simp only [List.head?_cons, Option.some.injEq] at hc
    subst hc
    rcases hs with h | h <;> subst h <;>
      exact ⟨by decide, by decide, by decide,
        fun c2 => isAmPm_fst_false _ _ (by decide) (by decide) (by decide) (by decide),
        fun c1 => isAmPm_snd_false _ _ (by decide) (by decide)⟩

theorem consumeAtom_extend (a : Atom) (v c r b : Cs) (hs : safeB b)
    (h : consumeAtom a v = some (c, r)) :
    consumeAtom a (v ++ b) = some (c, r ++ b) := by
  have hhead := safeB_head b hs
  have hdig : ∀ c2, b.head? = some c2 → isDig c2 = false :=
    fun c2 hc2 => (hhead c2 hc2).1
  have hws : ∀ c2, b.head? = some c2 → isWs c2 = false :=
    fun c2 hc2 => (hhead c2 hc2).2.1
  cases a with
  | digits lo hi =>
    simp only [consumeAtom] at h ⊢
    rw [takeWhile_stop isDig v b hdig, dropWhile_stop isDig v b hdig]
    split at h
    · rename_i hcond
      rw [if_pos hcond]
      simp only [Option.some.injEq, Prod.mk.injEq] at h
      rw [← h.1, ← h.2]
    · exact absurd h (by simp)
  | one p =>
    cases v with
    | nil => simp [consumeAtom] at h
    | cons c0 v2 =>
      simp only [consumeAtom] at h ⊢
      split at h
      · rename_i hp
        simp only [Option.some.injEq, Prod.mk.injEq] at h
        simp [List.cons_append, hp, ← h.1, ← h.2]
      · exact absurd h (by simp)
  | wsStar =>
    simp only [consumeAtom] at h ⊢
    rw [takeWhile_stop isWs v b hws, dropWhile_stop isWs v b hws]
    simp only [Option.some.injEq, Prod.mk.injEq] at h
    rw [← h.1, ← h.2]
  | secOpt =>
    cases v with
    | nil =>
      simp only [consumeAtom, Option.some.injEq, Prod.mk.injEq] at h
      rw [← h.1, ← h.2]
      simp only [List.nil_append, consumeAtom]
      cases b with
      | nil => rfl
      | cons b0 b2 =>
        have hb0 : b0 ≠ ':' := (hhead b0 rfl).2.2.1
        simp [hb0]
    | cons v0 v2 =>
      by_cases hv0 : v0 = ':'
      · subst hv0
        simp only [consumeAtom, eq_self_iff_true, if_true, List.cons_append] at h ⊢
        rw [takeWhile_stop isDig v2 b hdig, dropWhile_stop isDig v2 b hdig]
        split at h
        · rename_i hlen
          rw [if_pos hlen]
          simp only [Option.some.injEq, Prod.mk.injEq] at h
          rw [← h.1, ← h.2]
        · rename_i hlen
          rw [if_neg hlen]
          simp only [Option.some.injEq, Prod.mk.injEq] at h
          rw [← h.1, ← h.2]
          simp
      · simp only [consumeAtom, if_neg hv0, Option.some.injEq, Prod.mk.injEq] at h
        rw [← h.1, ← h.2]
        simp [consumeAtom, List.cons_append, hv0]
  | ampmOpt =>
    cases v with
    | nil =>
      simp only [consumeAtom, Option.some.injEq, Prod.mk.injEq] at h
      rw [← h.1, ← h.2]
      simp only [List.nil_append]
      cases b with
      | nil => rfl
      | cons b0 b2 =>
        cases b2 with
        | nil => rfl
        | cons b1 b3 =>
          have : isAmPm b0 b1 = false :=
            (hhead b0 rfl).2.2.2.1 b1
          simp [consumeAtom, this]
    | cons v0 v2 =>
      cases v2 with
      | nil =>
        simp only [consumeAtom, Option.some.injEq, Prod.mk.injEq] at h
        rw [← h.1, ← h.2]
        simp only [List.cons_append, List.nil_append]
        cases b with
        | nil => rfl
        | cons b0 b2 =>
          have : isAmPm v0 b0 = false :=
            (hhead b0 rfl).2.2.2.2 v0
          simp [consumeAtom, this]
      | cons v1 v3 =>
        simp only [consumeAtom] at h ⊢
        split at h
        · rename_i hap
          simp only [Option.some.injEq, Prod.mk.injEq] at h
          simp [List.cons_append, hap, ← h.1, ← h.2]
        · rename_i hap
          simp only [Option.some.injEq, Prod.mk.injEq] at h
          rw [← h.1, ← h.2]
          simp [List.cons_append, hap]

theorem consumeSeq_extend (as : List Atom) (v c r b : Cs) (hs : safeB b)
    (h : consumeSeq as v = some (c, r)) :
    consumeSeq as (v ++ b) = some (c, r ++ b) := by
  induction as generalizing v c r with
  | nil =>
    simp only [consumeSeq, Option.some.injEq, Prod.mk.injEq] at h
    simp only [consumeSeq, Option.some.injEq, Prod.mk.injEq]
    exact ⟨h.1, by rw [← h.2]⟩
  | cons a as2 ih =>
    simp only [consumeSeq] at h ⊢
    cases h1 : consumeAtom a v with
    | none => simp [h1] at h
    | some cr =>
      obtain ⟨c1, r1⟩ := cr
      simp only [h1] at h
      cases h2 : consumeSeq as2 r1 with
      | none => simp [h2] at h
      | some cr2 =>
        obtain ⟨c2, r2⟩ := cr2
        simp only [h2, Option.some.injEq, Prod.mk.injEq] at h
        rw [consumeAtom_extend a v c1 r1 b hs h1]
        simp only [ih r1 c2 r2 h2]
        simp [h.1, h.2]

theorem isDate_extend (d b : Cs) (hd : IsDate d) (hs : safeB b) :
    consumeDate (d ++ b) = some (d, b) := by
  have := consumeSeq_extend dateAtoms d d [] b hs hd
  simpa [consumeDate] using this

theorem isTime_extend (t b : Cs) (ht : IsTime t) (hs : safeB b) :
    consumeTime (t ++ b) = some (t, b) := by
  have := consumeSeq_extend timeAtoms t t [] b hs ht
  simpa [consumeTime] using this

theorem isTime_head_digit (t : Cs) (ht : IsTime t) :
    ∃ c r, t = c :: r ∧ isDig c = true := by
  unfold IsTime consumeTime timeAtoms at ht
  simp only [consumeSeq] at ht
  cases h1 : consumeAtom (Atom.digits 1 2) t with
  | none => simp [h1] at ht
  | some cr =>
    obtain ⟨c1, r1⟩ := cr
    have h2 := h1
    simp only [consumeAtom] at h2
    split at h2
    · rename_i hcond
      simp only [Option.some.injEq, Prod.mk.injEq] at h2
      have hlen : 1 ≤ c1.length := by
        rw [← h2.1]
        exact hcond.1
      obtain ⟨c0, c1r, hc1⟩ := List.exists_cons_of_ne_nil
        (show c1 ≠ [] by intro he; rw [he] at hlen; simp at hlen)
      have hc0 : isDig c0 = true := by
        have hall := all_takeWhile isDig t
        rw [h2.1] at hall
        exact hall c0 (by rw [hc1]; simp)
      have hsplit : t = c1 ++ r1 := by
        rw [← h2.1, ← h2.2]
        exact (List.takeWhile_append_dropWhile isDig t).symm
      exact ⟨c0, c1r ++ r1, by rw [hsplit, hc1]; simp, hc0⟩
    · exact absurd h2 (by simp)

theorem consumeCommaWs_comma_space (u : Cs) (c0 : Char) (u2 : Cs)
    (hu : u = c0 :: u2) (hc0 : isWs c0 = false) :
    consumeCommaWs (',' :: ' ' :: u) = some u := by
  subst hu
  simp [consumeCommaWs, spanP, List.takeWhile_cons, List.dropWhile_cons, hc0,
    show isWs ' ' = true from rfl]

theorem consumeBracketHead_compose (d t rest : Cs) (hd : IsDate d)
    (ht : IsTime t) :
    consumeBracketHead ('[' :: (d ++ ',' :: ' ' :: (t ++ ']' :: rest))) =
      some (d, t, rest) := by
  obtain ⟨t0, t2, ht0, hdg⟩ := isTime_head_digit t ht
  have h1 : consumeDate (d ++ ',' :: ' ' :: (t ++ ']' :: rest)) =
      some (d, ',' :: ' ' :: (t ++ ']' :: rest)) :=
    isDate_extend d _ hd (by simp [safeB])
  have h2 : consumeCommaWs (',' :: ' ' :: (t ++ ']' :: rest)) =
      some (t ++ ']' :: rest) := by
    refine consumeCommaWs_comma_space _ t0 (t2 ++ ']' :: rest) ?_
      (isDig_not_ws t0 hdg)
    rw [ht0]
    simp
  have h3 : consumeTime (t ++ ']' :: rest) = some (t, ']' :: rest) :=
    isTime_extend t _ ht (by simp [safeB])
  simp only [consumeBracketHead, h1, h2, h3]

theorem bracketTsOnly_exact (d t : Cs) (hd : IsDate d) (ht : IsTime t) :
    bracketTsOnly ('[' :: (d ++ ',' :: ' ' :: (t ++ [']']))) = some (d, t) := by
  have h := consumeBracketHead_compose d t [] hd ht
  simp only [bracketTsOnly, h]
  simp

theorem bracketTsOnly_tail_content (d t rest : Cs) (hd : IsDate d)
    (ht : IsTime t) (c0 : Char) (hc0 : c0 ∈ rest) (hws : isWs c0 = false) :
    bracketTsOnly ('[' :: (d ++ ',' :: ' ' :: (t ++ ']' :: rest))) = none := by
  have h := consumeBracketHead_compose d t rest hd ht
  simp only [bracketTsOnly, h]
  have hne := dropWhile_ne_nil isWs rest c0 hc0 hws
  simp [List.isEmpty_iff, hne]

theorem consumeDate_head_not_digit (c : Char) (l : Cs) (h : isDig c = false) :
    consumeDate (c :: l) = none := by
  simp [consumeDate, dateAtoms, consumeSeq, consumeAtom, List.takeWhile_cons, h]

theorem senderOnly_compose (s x : Cs) (hne : s ≠ [])
    (hcolon : ∀ c ∈ s, (c != ':') = true) :
    senderOnly (s ++ ':' :: ' ' :: x) = some (s, x.dropWhile isWs) := by
  have hpre : (s ++ ':' :: ' ' :: x).takeWhile (· != ':') = s := by
    rw [takeWhile_app_all _ s _ hcolon]
    simp [List.takeWhile_cons]
  simp only [senderOnly, hpre]
  have hcond : ¬(s.length = 0 ∨ s.length = (s ++ ':' :: ' ' :: x).length) := by
    push_neg
    constructor
    · simpa using hne
    · simp [List.length_append]
  rw [if_neg hcond]
  have hdrop : (s ++ ':' :: ' ' :: x).drop (s.length + 1) = ' ' :: x := by
    rw [← List.drop_drop, List.drop_left]
    simp
  rw [hdrop]
  simp [List.dropWhile_cons, show isWs ' ' = true from rfl]

theorem consumeSenderColonText_compose (s x : Cs) (hne : s ≠ [])
    (hcolon : ∀ c ∈ s, (c != ':') = true) :
    ∃ s2, consumeSenderColonText (' ' :: (s ++ ':' :: ' ' :: x)) =
        some (s2, x.dropWhile isWs) ∧ stripChars s2 = stripChars s := by
  have hslen : 1 ≤ s.length := by
    cases s with
    | nil => exact absurd rfl hne
    | cons a l => simp
  have hwsl : (s.takeWhile isWs).length ≤ s.length := by
    simpa using (List.takeWhile_sublist isWs).length_le
  have htw : (' ' :: (s ++ ':' :: ' ' :: x)).takeWhile isWs =
      ' ' :: s.takeWhile isWs := by
    rw [List.takeWhile_cons]
    simp only [show isWs ' ' = true from rfl, if_true]
    rw [takeWhile_stop isWs s (':' :: ' ' :: x) (by intro c2 hc2; simp at hc2; subst hc2; rfl)]
  have hpre : (' ' :: (s ++ ':' :: ' ' :: x)).takeWhile (· != ':') =
      ' ' :: s := by
    rw [List.takeWhile_cons]
    simp only [show ((' ' : Char) != ':') = true from rfl, if_true]
    rw [takeWhile_app_all _ s _ hcolon]
    simp [List.takeWhile_cons]
  simp only [consumeSenderColonText, htw, hpre, List.length_cons,
    Nat.add_sub_cancel]
  have hcond : ¬((s.takeWhile isWs).length + 1 = 0 ∨ s.length + 1 < 2 ∨
      s.length + 1 = (s ++ ':' :: ' ' :: x).length + 1) := by
    push_neg
    refine ⟨by omega, by omega, ?_⟩
    simp [List.length_append]
  rw [if_neg hcond]
  have hj1 : 1 ≤ min ((s.takeWhile isWs).length + 1) s.length := by omega
  have hjs : min ((s.takeWhile isWs).length + 1) s.length - 1 ≤ s.length := by
    omega
  refine ⟨s.drop (min ((s.takeWhile isWs).length + 1) s.length - 1), ?_, ?_⟩
  · have hdropj : (' ' :: (s ++ ':' :: ' ' :: x)).drop
        (min ((s.takeWhile isWs).length + 1) s.length) =
        s.drop (min ((s.takeWhile isWs).length + 1) s.length - 1) ++
          ':' :: ' ' :: x := by
      have h1 : (' ' :: (s ++ ':' :: ' ' :: x)).drop
          (min ((s.takeWhile isWs).length + 1) s.length) =
          (s ++ ':' :: ' ' :: x).drop
            (min ((s.takeWhile isWs).length + 1) s.length - 1) := by
        cases hjc : min ((s.takeWhile isWs).length + 1) s.length with
        | zero => omega
        | succ n => simp only [List.drop_succ_cons, Nat.add_sub_cancel]
      rw [h1, List.drop_append_of_le_length hjs]
    have htake : (s.drop (min ((s.takeWhile isWs).length + 1) s.length - 1) ++
          ':' :: ' ' :: x).take
            (s.length + 1 - min ((s.takeWhile isWs).length + 1) s.length) =
        s.drop (min ((s.takeWhile isWs).length + 1) s.length - 1) := by
      have hlen2 : (s.drop
          (min ((s.takeWhile isWs).length + 1) s.length - 1)).length =
          s.length + 1 - min ((s.takeWhile isWs).length + 1) s.length := by
        simp only [List.length_drop]
        omega
      rw [← hlen2, List.take_left]
    have hdropp : (' ' :: (s ++ ':' :: ' ' :: x)).drop (s.length + 1 + 1) =
        ' ' :: x := by
      simp only [List.drop_succ_cons]
      have h2 : (s ++ ':' :: ' ' :: x).drop (s.length + 1) =
          (':' :: ' ' :: x).drop 1 := List.drop_append 1
      rw [h2]
      simp
    rw [hdropj, htake, hdropp]
    simp [List.dropWhile_cons, show isWs ' ' = true from rfl]
  · exact strip_drop_ws s (min ((s.takeWhile isWs).length + 1) s.length - 1)
      (by omega)

theorem splitGo_one_break (a : Cs) :
    ∀ acc b, (∀ c ∈ a, c ≠ '\n' ∧ c ≠ '\r') → b ≠ [] →
      splitGo (a ++ '\n' :: b) acc = (acc.reverse ++ a) :: splitGo b [] := by
  induction a with
  | nil =>
    intro acc b _ hb
    simpa using splitGo_newline b acc hb
  | cons c a2 ih =>
    intro acc b h hb
    have hc := h c (by simp)
    rw [List.cons_append, splitGo_cons_other c (a2 ++ '\n' :: b) acc hc.1 hc.2]
    rw [ih (c :: acc) b (fun c2 hc2 => h c2 (by simp [hc2])) hb]
    simp

/-- C1: for every date, time, sender and text such that the bracketed
single-line form parses (the date and time match their sub-patterns, the
sender is a nonempty colon-free token, no component carries a line
break, and the date/time resolve to a timestamp), the two-line input
`[date, time]` newline `sender: text` produces exactly the same single
Message — same timestamp, sender, text and `is_system = false` — as the
single-line form `[date, time] sender: text`. -/
theorem C1_round_trip_two_line (d t s x : Cs) (ts : DateTime)
    (hd : IsDate d) (ht : IsTime t)
    (hdn : ∀ c ∈ d, c ≠ '\n' ∧ c ≠ '\r')
    (htn : ∀ c ∈ t, c ≠ '\n' ∧ c ≠ '\r')
    (hs : s ≠ []) (hsc : ∀ c ∈ s, c ≠ ':')
    (hsn : ∀ c ∈ s, c ≠ '\n' ∧ c ≠ '\r')
    (hxn : ∀ c ∈ x, c ≠ '\n' ∧ c ≠ '\r')
    (hts : try_parse_dt d t = some ts) :
    parse_chat_text
        ('[' :: (d ++ ',' :: ' ' :: (t ++ ']' :: ' ' :: (s ++ ':' :: ' ' :: x)))) =
      [⟨some ts, some (stripChars s), x.dropWhile isWs, false⟩] ∧
    parse_chat_text
        (('[' :: (d ++ ',' :: ' ' :: (t ++ [']']))) ++ '\n' :: (s ++ ':' :: ' ' :: x)) =
      [⟨some ts, some (stripChars s), x.dropWhile isWs, false⟩] := by
  have hcolonB : ∀ c ∈ s, (c != ':') = true := by
    intro c hc
    simpa [bne_iff_ne] using hsc c hc
  obtain ⟨s2, hsct, hstrip⟩ := consumeSenderColonText_compose s x hs hcolonB
  constructor
  · -- single-line form
    have hnb : ∀ c ∈ '[' :: (d ++ ',' :: ' ' ::
        (t ++ ']' :: ' ' :: (s ++ ':' :: ' ' :: x))), c ≠ '\n' ∧ c ≠ '\r' := by
      intro c hc
      rcases List.mem_cons.mp hc with rfl | hc
      · exact ⟨by decide, by decide⟩
      rcases List.mem_append.mp hc with hc | hc
      · exact hdn c hc
      rcases List.mem_cons.mp hc with rfl | hc
      · exact ⟨by decide, by decide⟩
      rcases List.mem_cons.mp hc with rfl | hc
      · exact ⟨by decide, by decide⟩
      rcases List.mem_append.mp hc with hc | hc
      · exact htn c hc
      rcases List.mem_cons.mp hc with rfl | hc
      · exact ⟨by decide, by decide⟩
      rcases List.mem_cons.mp hc with rfl | hc
      · exact ⟨by decide, by decide⟩
      rcases List.mem_append.mp hc with hc | hc
      · exact hsn c hc
      rcases List.mem_cons.mp hc with rfl | hc
      · exact ⟨by decide, by decide⟩
      rcases List.mem_cons.mp hc with rfl | hc
      · exact ⟨by decide, by decide⟩
      exact hxn c hc
    have hsplit : splitLines ('[' :: (d ++ ',' :: ' ' ::
        (t ++ ']' :: ' ' :: (s ++ ':' :: ' ' :: x)))) =
        ['[' :: (d ++ ',' :: ' ' :: (t ++ ']' :: ' ' :: (s ++ ':' :: ' ' :: x)))] := by
      rw [splitLines]
      simp only [List.isEmpty_cons, if_false, Bool.false_eq_true]
      simpa using splitGo_no_break _ [] hnb
    have hbto : bracketTsOnly ('[' :: (d ++ ',' :: ' ' ::
        (t ++ ']' :: ' ' :: (s ++ ':' :: ' ' :: x)))) = none := by
      refine bracketTsOnly_tail_content d t _ hd ht ':' ?_ (by decide)
      simp
    have hand : androidAuthored ('[' :: (d ++ ',' :: ' ' ::
        (t ++ ']' :: ' ' :: (s ++ ':' :: ' ' :: x)))) = none := by
      simp only [androidAuthored,
        consumeDate_head_not_digit '[' _ (by decide)]
    have hios : iosAuthored ('[' :: (d ++ ',' :: ' ' ::
        (t ++ ']' :: ' ' :: (s ++ ':' :: ' ' :: x)))) =
        some (d, t, s2, x.dropWhile isWs) := by
      simp only [iosAuthored, consumeBracketHead_compose d t _ hd ht, hsct]
    have hstep : step ⟨none, none, []⟩ ('[' :: (d ++ ',' :: ' ' ::
        (t ++ ']' :: ' ' :: (s ++ ':' :: ' ' :: x)))) =
        ⟨some ⟨try_parse_dt d t, some (stripChars s2), x.dropWhile isWs, false⟩,
          none, []⟩ := by
      simp [step, hbto, matchPatterns, hand, hios, flushCur]
    unfold parse_chat_text
    rw [hsplit]
    simp only [List.foldl_cons, List.foldl_nil, hstep]
    simp [flushCur, hts, hstrip]
  · -- two-line form
    have hnb1 : ∀ c ∈ '[' :: (d ++ ',' :: ' ' :: (t ++ [']'])),
        c ≠ '\n' ∧ c ≠ '\r' := by
      intro c hc
      rcases List.mem_cons.mp hc with rfl | hc
      · exact ⟨by decide, by decide⟩
      rcases List.mem_append.mp hc with hc | hc
      · exact hdn c hc
      rcases List.mem_cons.mp hc with rfl | hc
      · exact ⟨by decide, by decide⟩
      rcases List.mem_cons.mp hc with rfl | hc
      · exact ⟨by decide, by decide⟩
      rcases List.mem_append.mp hc with hc | hc
      · exact htn c hc
      rcases List.mem_cons.mp hc with rfl | hc
      · exact ⟨by decide, by decide⟩
      simp at hc
    have hnb2 : ∀ c ∈ s ++ ':' :: ' ' :: x, c ≠ '\n' ∧ c ≠ '\r' := by
      intro c hc
      rcases List.mem_append.mp hc with hc | hc
      · exact hsn c hc
      rcases List.mem_cons.mp hc with rfl | hc
      · exact ⟨by decide, by decide⟩
      rcases List.mem_cons.mp hc with rfl | hc
      · exact ⟨by decide, by decide⟩
      exact hxn c hc
    have hsplit : splitLines (('[' :: (d ++ ',' :: ' ' :: (t ++ [']']))) ++
        '\n' :: (s ++ ':' :: ' ' :: x)) =
        ['[' :: (d ++ ',' :: ' ' :: (t ++ [']'])), s ++ ':' :: ' ' :: x] := by
      rw [splitLines, if_neg (by simp)]
      rw [splitGo_one_break _ [] _ hnb1 (by simp)]
      rw [splitGo_no_break _ [] hnb2]
      simp
    have hstep1 : step ⟨none, none, []⟩
        ('[' :: (d ++ ',' :: ' ' :: (t ++ [']']))) = ⟨none, some ts, []⟩ := by
      simp [step, bracketTsOnly_exact d t hd ht, hts]
    have hstep2 : step ⟨none, some ts, []⟩ (s ++ ':' :: ' ' :: x) =
        ⟨some ⟨some ts, some (stripChars s), x.dropWhile isWs, false⟩,
          none, []⟩ := by
      simp [step, senderOnly_compose s x hs hcolonB, flushCur]
    unfold parse_chat_text
    rw [hsplit]
    simp only [List.foldl_cons, List.foldl_nil, hstep1, hstep2]
    simp [flushCur]

/-- Witness for C1 at a concrete bracketed message. -/
theorem C1_witness :
    parse_chat_text
        ('[' :: ("15.04.2020".toList ++ ',' :: ' ' :: ("16:20:56".toList ++
          ']' :: ' ' :: ("Name".toList ++ ':' :: ' ' :: "hi".toList)))) =
      [⟨some ⟨2020, 4, 15, 16, 20, 56⟩, some (stripChars "Name".toList),
        ("hi".toList).dropWhile isWs, false⟩] ∧
    parse_chat_text
        (('[' :: ("15.04.2020".toList ++ ',' :: ' ' :: ("16:20:56".toList ++
          [']']))) ++ '\n' :: ("Name".toList ++ ':' :: ' ' :: "hi".toList)) =
      [⟨some ⟨2020, 4, 15, 16, 20, 56⟩, some (stripChars "Name".toList),
        ("hi".toList).dropWhile isWs, false⟩] :=
  C1_round_trip_two_line "15.04.2020".toList "16:20:56".toList "Name".toList
    "hi".toList ⟨2020, 4, 15, 16, 20, 56⟩ (by decide) (by decide) (by decide)
    (by decide) (by decide) (by decide) (by decide) (by decide) (by decide)

end WA
